import Mathlib

/-!
Verification development for the `validate` Go library (rule AST, tag
parser, rule compiler, canonical rule serialization, compilation cache,
engine configuration and struct walker).

Modelling conventions:
* Go strings are modelled as their rune sequences (`List Char`).  Go's
  byte-oriented operations (`len`, byte slicing) are recovered from the
  UTF-8 size of each rune; under UTF-8, byte-wise lexicographic order
  coincides with rune-wise lexicographic order, which is how
  `sort.Strings` is modelled.
* Go `int`/`int64` values are modelled as unbounded `Int` (no claim in
  this development exercises 64-bit overflow of compiled thresholds).
* `error` values returned by the library are modelled by `VError`:
  either a structured `errors.Errors` list of `FieldError`s or a plain
  (generic) error string.  `nil` errors are `Option.none`.
* External collaborators are modelled as oracles carried in the
  structures that use them: the `Translator` capability, the Go regexp
  library (`regexCompile`), and the process-global plugin rule registry
  snapshotted by `NewCompiler`.
-/

namespace ValidateLib

/-- Go strings, modelled as their rune sequence. -/
abbrev GoString := List Char

/-- Embed a Lean string literal as a Go string. -/
def str (s : String) : GoString := s.toList

/-- Go `len(s)`: the UTF-8 byte length of a string. -/
def goLen (s : GoString) : Nat := (s.map Char.utf8Size).sum

/-- Go `utf8.RuneCountInString`. -/
def runeCount (s : GoString) : Nat := s.length

/-- Byte-wise (equivalently, under UTF-8, rune-wise) lexicographic
string comparison, as used by Go's `sort.Strings`. -/
def strLeB : GoString → GoString → Bool
  | [], _ => true
  | _ :: _, [] => false
  | a :: as, b :: bs =>
    if a.toNat < b.toNat then true
    else if a.toNat = b.toNat then strLeB as bs
    else false

/-- The propositional form of `strLeB`, used as the sorting relation. -/
def strLe (a b : GoString) : Prop := strLeB a b = true

instance : DecidableRel strLe := fun a b =>
  inferInstanceAs (Decidable (strLeB a b = true))

/-- Go `strings.Split(s, sep)` for a one-rune separator (always at least
one part; splitting the empty string yields one empty part). -/
def splitAllAux (sep : Char) : GoString → GoString → List GoString
  | [], cur => [cur]
  | c :: cs, cur =>
    if c = sep then cur :: splitAllAux sep cs []
    else splitAllAux sep cs (cur ++ [c])

/-- Go `strings.Split(s, string(sep))`. -/
def splitAll (s : GoString) (sep : Char) : List GoString := splitAllAux sep s []

/-- Go `strings.Join(parts, sep)`. -/
def goJoin (sep : GoString) : List GoString → GoString
  | [] => []
  | [p] => p
  | p :: ps => p ++ sep ++ goJoin sep ps

/-- Whitespace recognizer backing the `strings.Fields` model. -/
def isSpaceCh (c : Char) : Bool :=
  c = ' ' ∨ c = '\t' ∨ c = '\n' ∨ c = '\r'

/-- Go `strings.Fields`: split around runs of whitespace, dropping
empty fields. -/
def goFieldsAux : GoString → GoString → List GoString
  | [], cur => if cur = [] then [] else [cur]
  | c :: cs, cur =>
    if isSpaceCh c then
      if cur = [] then goFieldsAux cs [] else cur :: goFieldsAux cs []
    else goFieldsAux cs (cur ++ [c])

/-- Go `strings.Fields(s)`. -/
def goFields (s : GoString) : List GoString := goFieldsAux s []

/-- Go `strings.HasPrefix`. -/
def goHasPref : GoString → GoString → Bool
  | _, [] => true
  | [], _ :: _ => false
  | a :: as, b :: bs => a = b && goHasPref as bs

/-- Go `strings.TrimPrefix` (drops the leading pattern when present). -/
def goTrimPref (s p : GoString) : GoString :=
  if goHasPref s p then s.drop p.length else s

/-- Go `strings.HasSuffix`. -/
def goHasSuffix (s p : GoString) : Bool := goHasPref s.reverse p.reverse

/-- Go `strings.TrimSuffix` (drops the trailing pattern when present). -/
def goTrimSuffix (s p : GoString) : GoString :=
  if goHasSuffix s p then s.take (s.length - p.length) else s

/-- Go `strings.Contains(s, string(c))` for a one-rune needle. -/
def containsCh (s : GoString) (c : Char) : Bool := s.any (· = c)

/-- Decimal digit character for a value below ten. -/
def digitCh (n : Nat) : Char := Char.ofNat (48 + n)

/-- Decimal digits of a natural number (fuel-driven; the fuel `n + 1`
always suffices since `n / 10 < n` for positive `n`). -/
def natDigitsAux : Nat → Nat → GoString
  | 0, _ => []
  | fuel + 1, n =>
    if n < 10 then [digitCh n]
    else natDigitsAux fuel (n / 10) ++ [digitCh (n % 10)]

/-- Go `strconv.FormatUint(x, 10)` / `fmt %d` on naturals. -/
def natToStr (n : Nat) : GoString := natDigitsAux (n + 1) n

/-- Go `strconv.FormatInt(x, 10)` / `fmt %d` on integers. -/
def intToStr (n : Int) : GoString :=
  if n < 0 then '-' :: natToStr n.natAbs else natToStr n.toNat

/-- Minimal model of Go `strconv.Quote` (escapes backslash and
double-quote; the control/non-ASCII escapes are not exercised by any
argument value constructed in this development). -/
def goQuote (s : GoString) : GoString :=
  '"' :: (s.flatMap fun c => if c = '"' ∨ c = '\\' then ['\\', c] else [c]) ++ ['"']

/-- Take a prefix of at most `n` bytes (whole runes; the byte budgets
used by the library land on rune boundaries for the ASCII inputs it
truncates). -/
def takeBytes : GoString → Nat → GoString
  | [], _ => []
  | c :: cs, n => if c.utf8Size ≤ n then c :: takeBytes cs (n - c.utf8Size) else []

/-- `types.truncateForError`: truncate a string for error messages. -/
def truncateForError (s : GoString) (maxLen : Nat) : GoString :=
  if goLen s ≤ maxLen then s else takeBytes s maxLen ++ str "..."

/-- ASCII decimal digit test. -/
def isDigitCh (c : Char) : Bool := 48 ≤ c.toNat ∧ c.toNat ≤ 57

/-- Numeric value of a digit string. -/
def digitsVal (l : GoString) : Nat := l.foldl (fun acc c => acc * 10 + (c.toNat - 48)) 0

/-- Core of Go `strconv.ParseInt(s, 10, 64)`: an optional sign followed
by at least one decimal digit, with the 64-bit signed range check.
Returns `none` on any syntax or range error. -/
def goParseIntCore (s : GoString) : Option Int :=
  let sign : Int := if s.head? = some '-' then -1 else 1
  let digits : GoString :=
    if s.head? = some '+' ∨ s.head? = some '-' then s.drop 1 else s
  if digits = [] then none
  else if digits.all isDigitCh then
    let v : Int := sign * (digitsVal digits : Nat)
    if -(2 ^ 63) ≤ v ∧ v ≤ 2 ^ 63 - 1 then some v else none
  else none

/-- Error text of a failed `strconv` parse (Go distinguishes syntax
from range errors; both are non-nil, which is all the library relies
on, so the model reports the syntax flavour for out-of-range numerals
of valid shape only when the shape is wrong). -/
def strconvErr (fn s : GoString) (range : Bool) : GoString :=
  str "strconv." ++ fn ++ str ": parsing " ++ goQuote s ++
    (if range then str ": value out of range" else str ": invalid syntax")

/-- Whether a numeral has valid base-10 integer syntax (ignoring range). -/
def intSyntaxOk (s : GoString) : Bool :=
  let digits : GoString :=
    if s.head? = some '+' ∨ s.head? = some '-' then s.drop 1 else s
  digits ≠ [] && digits.all isDigitCh

/-- Go `strconv.ParseInt(s, 10, 64)` with its error string. -/
def goParseInt64 (s : GoString) : Except GoString Int :=
  match goParseIntCore s with
  | some n => .ok n
  | none => .error (strconvErr (str "ParseInt") s (intSyntaxOk s))

/-- Go `strconv.Atoi` (64-bit platform: same range as `ParseInt 10 64`,
different error prefix). -/
def goAtoi (s : GoString) : Except GoString Int :=
  match goParseIntCore s with
  | some n => .ok n
  | none => .error (strconvErr (str "Atoi") s (intSyntaxOk s))

/-! ## Error model (`errors` package) -/

/-- `errors.FieldError`: one validation failure at a path.  The `Param`
field of the Go struct is never populated by the rule compiler or the
struct walker and is omitted from the model. -/
structure FieldError where
  path : GoString
  code : GoString
  msg : GoString
deriving DecidableEq

/-- A non-nil Go `error` value as produced by this library: either a
structured `errors.Errors` collection (matched by `errors.As`) or a
plain error (e.g. `fmt.Errorf`), carrying its `Error()` text. -/
inductive VError where
  | structured (es : List FieldError)
  | generic (msg : GoString)
deriving DecidableEq

/-- Stable machine codes from `errors/codes.go` (the ones the modelled
code paths produce). -/
def CodeUnknown : GoString := str "unknown"
def CodeStringType : GoString := str "string.type"
def CodeStringLength : GoString := str "string.length"
def CodeStringMin : GoString := str "string.min"
def CodeStringMax : GoString := str "string.max"
def CodeStringOneOf : GoString := str "string.oneof"
def CodeStringRegexInvalidPattern : GoString := str "string.regex.invalidPattern"
def CodeStringRegexInputTooLong : GoString := str "string.regex.inputTooLong"
def CodeStringRegexNoMatch : GoString := str "string.regex.noMatch"
def CodeStringMinRunes : GoString := str "string.minRunes"
def CodeStringMaxRunes : GoString := str "string.maxRunes"
def CodeIntType : GoString := str "int.type"
def CodeInt64Type : GoString := str "int64.type"
def CodeIntMin : GoString := str "int.min"
def CodeIntMax : GoString := str "int.max"
def CodeSliceType : GoString := str "slice.type"
def CodeSliceLength : GoString := str "slice.length"
def CodeSliceMin : GoString := str "slice.min"
def CodeSliceMax : GoString := str "slice.max"
def CodeBoolType : GoString := str "bool.type"

/-! ## Runtime values

Go `any` values presented to validators and to the struct walker,
modelled as a closed sum over the shapes the library inspects. -/

/-- Bit widths of Go's signed integer types. -/
inductive IntW | i | i8 | i16 | i32 | i64
deriving DecidableEq

/-- Bit widths of Go's unsigned integer types. -/
inductive UIntW | u | u8 | u16 | u32 | u64
deriving DecidableEq

mutual
/-- A Go `any` value.  `vNil` is the nil interface (reflect kind
`Invalid`); `vPtr none` a typed nil pointer.  Go arrays are presented
through `vSlice` only where the walker treats slices and arrays
identically; map keys are modelled as strings (the walker renders keys
with `fmt.Sprint`). -/
inductive Value where
  | vNil
  | vStr (s : GoString)
  | vBool (b : Bool)
  | vInt (w : IntW) (n : Int)
  | vUInt (w : UIntW) (n : Nat)
  | vSlice (xs : List Value)
  | vStruct (fs : List StructField)
  | vMapV (entries : List (GoString × Value))
  | vPtr (p : Option Value)
/-- One struct field as seen through reflection: name, exported flag
(`PkgPath == ""`), the `validate` tag text, and the field value. -/
inductive StructField where
  | mk (name : GoString) (exported : Bool) (tag : GoString) (v : Value)
end

/-- A compiled validator: `types.ValidatorFunc` (`func(any) error`). -/
abbrev ValueFn := Value → Option VError

/-- The injected `translator.Translator` capability: `T(key, params...)`. -/
abbrev Translator := GoString → List Value → GoString

/-! ## Rule AST (`types` package) -/

mutual
/-- A rule argument (`Rule.Args` map value).  The constructors mirror
the dynamic types the library stores and inspects: strings, bools,
fixed-width integers, `[]string`, nested `[]types.Rule`, `*types.Rule`,
function values (`func(any) error`, carrying an abstract address
standing for the Go function pointer), plus the generic containers
(`map[string]any`, `[]any`/arrays, struct values with per-field
exported flags) traversed by `argHasFunc`.  Float arguments are never
constructed by the library and are omitted. -/
inductive Arg where
  | aNil
  | aStr (s : GoString)
  | aBool (b : Bool)
  | aInt (w : IntW) (n : Int)
  | aUInt (w : UIntW) (n : Nat)
  | aStrList (ss : List GoString)
  | aRules (rs : List Rule)
  | aRulePtr (r : Option Rule)
  | aFunc (addr : Nat) (f : ValueFn)
  | aMap (m : List (GoString × Arg))
  | aList (l : List Arg)
  | aStructV (fs : List (Bool × Arg))
/-- `types.Rule`: kind, argument map (association list in first-match
map semantics) and optional element sub-rule. -/
inductive Rule where
  | mk (kind : GoString) (args : List (GoString × Arg)) (elem : Option Rule)
end

/-- The rule's kind. -/
def Rule.kind : Rule → GoString
  | .mk k _ _ => k

/-- The rule's argument map. -/
def Rule.args : Rule → List (GoString × Arg)
  | .mk _ a _ => a

/-- The rule's optional element sub-rule. -/
def Rule.elem : Rule → Option Rule
  | .mk _ _ e => e

/-- `types.NewRule`. -/
def NewRule (kind : GoString) (args : List (GoString × Arg)) : Rule :=
  .mk kind args none

/-- Go map indexing on the modelled `Args` map (first match). -/
def argsFind : List (GoString × Arg) → GoString → Option Arg
  | [], _ => none
  | (k, v) :: rest, key => if k = key then some v else argsFind rest key

/-- Rule kind constants from `types` (values of the Go `Kind` consts). -/
def KString : GoString := str "string"
def KLength : GoString := str "length"
def KMinLength : GoString := str "minLength"
def KMaxLength : GoString := str "maxLength"
def KRegex : GoString := str "regex"
def KOneOf : GoString := str "oneOf"
def KMinRunes : GoString := str "minRunes"
def KMaxRunes : GoString := str "maxRunes"
def KInt : GoString := str "int"
def KInt64 : GoString := str "int64"
def KMinInt : GoString := str "minInt"
def KMaxInt : GoString := str "maxInt"
def KSlice : GoString := str "slice"
def KSliceLength : GoString := str "sliceLength"
def KMinSliceLength : GoString := str "minSliceLength"
def KMaxSliceLength : GoString := str "maxSliceLength"
def KForEach : GoString := str "forEach"
def KBool : GoString := str "bool"

/-! ## Rule compiler (`types/compiler.go`) -/

/-- `types.Compiler`.  `custom` is the per-instance registry (the copy
of the global plugin registry made by `NewCompiler`); a handler models
`RuleCompiler` with the compiler argument pre-applied, and `none`
stands for a handler returning a non-nil error or a nil function (both
of which make `compileRule` fall through to the built-in switch).
`regexCompile` is the Go regexp library treated as an oracle: `some`
yields the compiled matcher, `none` a compilation error. -/
structure Compiler where
  translator : Option Translator
  custom : GoString → Option (Rule → Option ValueFn)
  regexCompile : GoString → Option (GoString → Bool)

/-- `Compiler.translateMessage`. -/
def translateMessage (c : Compiler) (code defaultMsg : GoString)
    (params : List Value) : GoString :=
  match c.translator with
  | some t =>
    let translated := t code params
    if translated ≠ [] then translated else defaultMsg
  | none => defaultMsg

/-- A one-element `verrs.Errors{verrs.FieldError{Path: "", ...}}` error. -/
def oneErr (code msg : GoString) : Option VError :=
  some (.structured [⟨[], code, msg⟩])

/-- `types.toInt64`: coerce supported integer representations to int64
(unsigned values above MaxInt64 and non-integer text are rejected;
floats are never accepted). -/
def toInt64 (v : Value) : Option Int :=
  match v with
  | .vInt _ n => some n
  | .vUInt w m =>
    match w with
    | .u => if (2 : Int) ^ 63 - 1 < (m : Int) then none else some m
    | .u64 => if (2 : Int) ^ 63 - 1 < (m : Int) then none else some m
    | _ => some m
  | .vStr s => goParseIntCore s
  | _ => none

/-- `Compiler.getIntArg` (accepts Go `int` and `int64` arguments only). -/
def getIntArg (rule : Rule) (key : GoString) (defaultVal : Int) : Int :=
  match argsFind rule.args key with
  | some (.aInt .i n) => n
  | some (.aInt .i64 n) => n
  | _ => defaultVal

/-- `Compiler.getInt64Arg` (accepts Go `int64` arguments only). -/
def getInt64Arg (rule : Rule) (key : GoString) (defaultVal : Int) : Int :=
  match argsFind rule.args key with
  | some (.aInt .i64 n) => n
  | _ => defaultVal

/-- `Compiler.getStringArg`. -/
def getStringArg (rule : Rule) (key : GoString) (defaultVal : GoString) : GoString :=
  match argsFind rule.args key with
  | some (.aStr s) => s
  | _ => defaultVal

/-- `Compiler.getStringSliceArg`. -/
def getStringSliceArg (rule : Rule) (key : GoString)
    (defaultVal : List GoString) : List GoString :=
  match argsFind rule.args key with
  | some (.aStrList ss) => ss
  | _ => defaultVal

/-- `Compiler.validateString`. -/
def validateString (c : Compiler) (v : Value) : Option VError :=
  match v with
  | .vStr _ => none
  | _ => oneErr CodeStringType
      (translateMessage c (str "string.type") (str "expected string") [])

/-- The `string.type` error shared by the string validators. -/
def stringTypeErr (c : Compiler) : Option VError :=
  oneErr CodeStringType
    (translateMessage c (str "string.type") (str "expected string") [])

/-- `Compiler.validateLength` (byte length must equal `n`). -/
def validateLength (c : Compiler) (v : Value) (n : Int) : Option VError :=
  match v with
  | .vStr s =>
    if (goLen s : Int) ≠ n then
      oneErr CodeStringLength
        (translateMessage c (str "string.length")
          (str "length must be " ++ intToStr n) [.vInt .i n])
    else none
  | _ => stringTypeErr c

/-- `Compiler.validateMinLength`. -/
def validateMinLength (c : Compiler) (v : Value) (n : Int) : Option VError :=
  match v with
  | .vStr s =>
    if (goLen s : Int) < n then
      oneErr CodeStringMin
        (translateMessage c (str "string.min")
          (str "minimum length is " ++ intToStr n) [.vInt .i n])
    else none
  | _ => stringTypeErr c

/-- `Compiler.validateMaxLength`. -/
def validateMaxLength (c : Compiler) (v : Value) (n : Int) : Option VError :=
  match v with
  | .vStr s =>
    if (goLen s : Int) > n then
      oneErr CodeStringMax
        (translateMessage c (str "string.max")
          (str "maximum length is " ++ intToStr n) [.vInt .i n])
    else none
  | _ => stringTypeErr c

/-- `Compiler.validateMinRunes`. -/
def validateMinRunes (c : Compiler) (v : Value) (n : Int) : Option VError :=
  match v with
  | .vStr s =>
    if (runeCount s : Int) < n then
      oneErr CodeStringMinRunes
        (translateMessage c (str "string.minRunes")
          (str "minimum rune count is " ++ intToStr n) [.vInt .i n])
    else none
  | _ => stringTypeErr c

/-- `Compiler.validateMaxRunes`. -/
def validateMaxRunes (c : Compiler) (v : Value) (n : Int) : Option VError :=
  match v with
  | .vStr s =>
    if (runeCount s : Int) > n then
      oneErr CodeStringMaxRunes
        (translateMessage c (str "string.maxRunes")
          (str "maximum rune count is " ++ intToStr n) [.vInt .i n])
    else none
  | _ => stringTypeErr c

/-- `Compiler.validateRegexWithPattern`: type check, nil-regex check,
10000-byte input cap, then the (anchored) match. -/
def validateRegexWithPattern (c : Compiler) (v : Value)
    (regex : Option (GoString → Bool)) (pattern : GoString) : Option VError :=
  match v with
  | .vStr s =>
    match regex with
    | none =>
      oneErr CodeStringRegexInvalidPattern
        (translateMessage c (str "string.regex.invalidPattern")
          (str "invalid regex pattern: %s") [.vStr pattern])
    | some re =>
      if goLen s > 10000 then
        oneErr CodeStringRegexInputTooLong
          (translateMessage c (str "string.regex.inputTooLong")
            (str "input too long (max 10000 characters)") [.vInt .i 10000])
      else if !re s then
        oneErr CodeStringRegexNoMatch
          (translateMessage c (str "string.regex.noMatch")
            (str "does not match required pattern") [])
      else none
  | _ => stringTypeErr c

/-- `Compiler.validateOneOf`. -/
def validateOneOf (c : Compiler) (v : Value) (values : List GoString) : Option VError :=
  match v with
  | .vStr s =>
    if values.any (· = s) then none
    else
      oneErr CodeStringOneOf
        (translateMessage c (str "string.oneof")
          (str "must be one of: " ++ goJoin (str ", ") values)
          [.vStr (goJoin (str ", ") values)])
  | _ => stringTypeErr c

/-- `Compiler.validateInt` (any native signed/unsigned integer). -/
def validateInt (c : Compiler) (v : Value) : Option VError :=
  match v with
  | .vInt _ _ => none
  | .vUInt _ _ => none
  | _ => oneErr CodeIntType
      (translateMessage c (str "int.type") (str "expected integer") [])

/-- `Compiler.validateInt64` (the exact mode: `int64` only). -/
def validateInt64 (c : Compiler) (v : Value) : Option VError :=
  match v with
  | .vInt .i64 _ => none
  | _ => oneErr CodeInt64Type
      (translateMessage c (str "int64.type") (str "expected int64") [])

/-- `Compiler.validateMinInt`. -/
def validateMinInt (c : Compiler) (v : Value) (n : Int) : Option VError :=
  match toInt64 v with
  | none => oneErr CodeIntType
      (translateMessage c (str "int.type") (str "expected integer") [])
  | some val =>
    if val < n then
      oneErr CodeIntMin
        (translateMessage c (str "int.min")
          (str "minimum value is " ++ intToStr n) [.vInt .i64 n])
    else none

/-- `Compiler.validateMaxInt`. -/
def validateMaxInt (c : Compiler) (v : Value) (n : Int) : Option VError :=
  match toInt64 v with
  | none => oneErr CodeIntType
      (translateMessage c (str "int.type") (str "expected integer") [])
  | some val =>
    if val > n then
      oneErr CodeIntMax
        (translateMessage c (str "int.max")
          (str "maximum value is " ++ intToStr n) [.vInt .i64 n])
    else none

/-- The `slice.type` error shared by the slice validators. -/
def sliceTypeErr (c : Compiler) : Option VError :=
  oneErr CodeSliceType
    (translateMessage c (str "slice.type") (str "expected slice") [])

/-- `Compiler.validateSlice` (nil check, then reflect kind check). -/
def validateSlice (c : Compiler) (v : Value) : Option VError :=
  match v with
  | .vSlice _ => none
  | _ => sliceTypeErr c

/-- `Compiler.validateSliceLength`. -/
def validateSliceLength (c : Compiler) (v : Value) (n : Int) : Option VError :=
  match v with
  | .vSlice xs =>
    if (xs.length : Int) ≠ n then
      oneErr CodeSliceLength
        (translateMessage c (str "slice.length")
          (str "length must be " ++ intToStr n) [.vInt .i n])
    else none
  | _ => sliceTypeErr c

/-- `Compiler.validateMinSliceLength`. -/
def validateMinSliceLength (c : Compiler) (v : Value) (n : Int) : Option VError :=
  match v with
  | .vSlice xs =>
    if (xs.length : Int) < n then
      oneErr CodeSliceMin
        (translateMessage c (str "slice.min")
          (str "minimum length is " ++ intToStr n) [.vInt .i n])
    else none
  | _ => sliceTypeErr c

/-- `Compiler.validateMaxSliceLength`. -/
def validateMaxSliceLength (c : Compiler) (v : Value) (n : Int) : Option VError :=
  match v with
  | .vSlice xs =>
    if (xs.length : Int) > n then
      oneErr CodeSliceMax
        (translateMessage c (str "slice.max")
          (str "maximum length is " ++ intToStr n) [.vInt .i n])
    else none
  | _ => sliceTypeErr c

/-- The `[i]` path piece for element `i`. -/
def brIdx (i : Nat) : GoString := '[' :: natToStr i ++ [']']

/-- The per-element body of `Compiler.validateForEach`'s loop, with the
running index: evaluate the element validator, prefix structured error
paths with `[i]`, wrap non-structured errors. -/
def forEachAux (elemValidator : ValueFn) : Nat → List Value → List FieldError
  | _, [] => []
  | i, x :: xs =>
    (match elemValidator x with
     | none => []
     | some (.structured es) => es.map fun fe => { fe with path := brIdx i ++ fe.path }
     | some (.generic m) => [⟨brIdx i, CodeUnknown, m⟩]) ++
    forEachAux elemValidator (i + 1) xs

/-- `Compiler.validateForEach`: slice check, then evaluate the element
validator on every element, aggregating all failures. -/
def validateForEach (c : Compiler) (v : Value) (elemValidator : ValueFn) : Option VError :=
  match v with
  | .vSlice xs =>
    let acc := forEachAux elemValidator 0 xs
    if acc.length > 0 then some (.structured acc) else none
  | _ => sliceTypeErr c

/-- `Compiler.validateBool`. -/
def validateBool (c : Compiler) (v : Value) : Option VError :=
  match v with
  | .vBool _ => none
  | _ => oneErr CodeBoolType
      (translateMessage c (str "bool.type") (str "expected boolean") [])

/-- `types.compiledRule`. -/
structure compiledRule where
  validate : ValueFn

/-- The returned top-level loop of `Compiler.Compile`: iterate the
precompiled closures in rule order and return the first failure. -/
def runChain : List compiledRule → Value → Option VError
  | [], _ => none
  | r :: rest, v =>
    match r.validate v with
    | some e => some e
    | none => runChain rest v

/-- `Compiler.compileRegexSafe`: anchor the pattern (prepend `^` and
append `$` when absent), then hand it to the regexp library. -/
def compileRegexSafe (c : Compiler) (pattern : GoString) : Option (GoString → Bool) :=
  let p1 := if pattern ≠ [] ∧ pattern.head? ≠ some '^' then '^' :: pattern else pattern
  let p2 := if p1 ≠ [] ∧ p1.getLast? ≠ some '$' then p1 ++ ['$'] else p1
  c.regexCompile p2

/-- The `KRegex` branch of `compileRule`: a failed regex compile turns
into an always-failing closure reporting the invalid-pattern code with
the original pattern; otherwise the matcher is captured. -/
def compileRegexRule (c : Compiler) (pattern : GoString) : compiledRule :=
  match compileRegexSafe c pattern with
  | none =>
    ⟨fun _ =>
      oneErr CodeStringRegexInvalidPattern
        (translateMessage c CodeStringRegexInvalidPattern
          (str "invalid regex pattern: %s") [.vStr pattern])⟩
  | some re => ⟨fun v => validateRegexWithPattern c v (some re) pattern⟩

/-- The `func(any) error` type assertion applied to `rule.Args["validator"]`
in the `KForEach` branch (any other value — or a missing key — falls
through, as in the source). -/
def validatorArgFn : Option Arg → Option ValueFn
  | some (.aFunc _ f) => some f
  | _ => none

mutual
/-- `Compiler.Compile`: an empty rule list compiles to the always-nil
validator; otherwise each rule is precompiled once and the returned
function runs the closures in order, first failure wins. -/
def Compile (c : Compiler) : List Rule → ValueFn
  | [] => fun _ => none
  | r :: rs => runChain (compileRule c r :: compileRuleList c rs)

/-- The `for i, rule := range rules` precompilation loop of `Compile`. -/
def compileRuleList (c : Compiler) : List Rule → List compiledRule
  | [] => []
  | r :: rs => compileRule c r :: compileRuleList c rs

/-- The `[]Rule` type assertion applied to `rule.Args["rules"]` in the
`KForEach` branch, combined with the nested `c.Compile(innerRules)`:
a value of another type yields `none` (falling through to the `Elem`
check, as in the source). -/
def compileRulesArg (c : Compiler) : Arg → Option ValueFn
  | .aRules rs => some (Compile c rs)
  | _ => none

/-- The `rule.Args["rules"]` map indexing of the `KForEach` branch
(scanning the association list keeps the recursion structural; first
match is Go map semantics). -/
def findForEachRules (c : Compiler) : List (GoString × Arg) → Option ValueFn
  | [] => none
  | (k, v) :: rest =>
    if k = str "rules" then compileRulesArg c v
    else findForEachRules c rest

/-- The `Elem` backward-compatibility fallback of the `KForEach`
branch: a non-nil `Elem` compiles the singleton chain
`[]Rule{*rule.Elem}` (spelled `runChain [compileRule c e]`, see
`elem_chain_is_compile_singleton`). -/
def elemCompiled (c : Compiler) : Option Rule → Option ValueFn
  | none => none
  | some e => some (runChain [compileRule c e])

/-- `Compiler.compileRule`: custom handlers first, then the built-in
kind switch; the default branch yields the always-failing
unknown-rule-kind validator.  The source's `if ok` / type-switch
cascades are spelled with `Option.orElse`/`Option.elim` (the `KForEach`
branch tries, in order: inner rules from tag parsing, the `Elem`
fallback, a raw validator function, and otherwise the always-nil
validator). -/
def compileRule (c : Compiler) : Rule → compiledRule
  | .mk kind args elem =>
    let rule : Rule := .mk kind args elem
    let forEachValidator : Option ValueFn :=
      (findForEachRules c args).orElse fun _ =>
        (elemCompiled c elem).orElse fun _ =>
          validatorArgFn (argsFind args (str "validator"))
    let builtin : compiledRule :=
      if kind = KString then ⟨fun v => validateString c v⟩
      else if kind = KLength then
        ⟨fun v => validateLength c v (getIntArg rule (str "n") 0)⟩
      else if kind = KMinLength then
        ⟨fun v => validateMinLength c v (getIntArg rule (str "n") 0)⟩
      else if kind = KMaxLength then
        ⟨fun v => validateMaxLength c v (getIntArg rule (str "n") 0)⟩
      else if kind = KMinRunes then
        ⟨fun v => validateMinRunes c v (getIntArg rule (str "n") 0)⟩
      else if kind = KMaxRunes then
        ⟨fun v => validateMaxRunes c v (getIntArg rule (str "n") 0)⟩
      else if kind = KRegex then
        compileRegexRule c (getStringArg rule (str "pattern") [])
      else if kind = KOneOf then
        ⟨fun v => validateOneOf c v (getStringSliceArg rule (str "values") [])⟩
      else if kind = KInt then ⟨fun v => validateInt c v⟩
      else if kind = KInt64 then ⟨fun v => validateInt64 c v⟩
      else if kind = KMinInt then
        ⟨fun v => validateMinInt c v (getInt64Arg rule (str "n") 0)⟩
      else if kind = KMaxInt then
        ⟨fun v => validateMaxInt c v (getInt64Arg rule (str "n") 0)⟩
      else if kind = KSlice then ⟨fun v => validateSlice c v⟩
      else if kind = KSliceLength then
        ⟨fun v => validateSliceLength c v (getIntArg rule (str "n") 0)⟩
      else if kind = KMinSliceLength then
        ⟨fun v => validateMinSliceLength c v (getIntArg rule (str "n") 0)⟩
      else if kind = KMaxSliceLength then
        ⟨fun v => validateMaxSliceLength c v (getIntArg rule (str "n") 0)⟩
      else if kind = KForEach then
        forEachValidator.elim ⟨fun _ => none⟩
          (fun elemValidator => ⟨fun v => validateForEach c v elemValidator⟩)
      else if kind = KBool then ⟨fun v => validateBool c v⟩
      else ⟨fun _ => some (.generic (str "unknown rule kind: " ++ kind))⟩
    (c.custom kind).elim builtin fun rc =>
      (rc rule).elim builtin fun fn => ⟨fn⟩
end

/-- The `Elem` fallback in `compileRule` compiles the singleton chain
`[]Rule{*rule.Elem}`; `runChain [compileRule c e]` is that compile. -/
theorem elem_chain_is_compile_singleton (c : Compiler) (e : Rule) :
    runChain [compileRule c e] = Compile c [e] := rfl

/-! ## Tag parser (`types/type_registry.go`) -/

/-- One step of `splitTagSafely`'s rune loop: state is the flushed
parts, the current builder and the parenthesis depth. -/
def splitStep (st : List GoString × GoString × Int) (c : Char) :
    List GoString × GoString × Int :=
  let parts := st.1
  let current := st.2.1
  let parenDepth := st.2.2
  if c = ';' then
    if parenDepth = 0 then (parts ++ [current], [], parenDepth)
    else (parts, current ++ [c], parenDepth)
  else if c = '(' then (parts, current ++ [c], parenDepth + 1)
  else if c = ')' then (parts, current ++ [c], parenDepth - 1)
  else (parts, current ++ [c], parenDepth)

/-- `types.splitTagSafely`: split a tag on semicolons, ignoring
semicolons inside parentheses (depth may go negative, as in Go). -/
def splitTagSafely (tag : GoString) : List GoString :=
  let st := tag.foldl splitStep ([], [], 0)
  if st.2.1.length > 0 then st.1 ++ [st.2.1] else st.1

/-- `types.parseStringRule`: `length=`/`min=`/`max=` with `strconv.Atoi`,
`regex=`, `oneof=` (comma- or space-delimited), and the bareword
fall-through that turns any other non-empty segment into a custom
(plugin) rule kind. -/
def parseStringRule (part : GoString) : Except GoString (Option Rule) :=
  if part = [] then .ok none
  else if goHasPref part (str "length=") then
    match goAtoi (goTrimPref part (str "length=")) with
    | .error e => .error e
    | .ok n => .ok (some (.mk KLength [(str "n", .aInt .i n)] none))
  else if goHasPref part (str "min=") then
    match goAtoi (goTrimPref part (str "min=")) with
    | .error e => .error e
    | .ok n => .ok (some (.mk KMinLength [(str "n", .aInt .i n)] none))
  else if goHasPref part (str "max=") then
    match goAtoi (goTrimPref part (str "max=")) with
    | .error e => .error e
    | .ok n => .ok (some (.mk KMaxLength [(str "n", .aInt .i n)] none))
  else if goHasPref part (str "regex=") then
    .ok (some (.mk KRegex [(str "pattern", .aStr (goTrimPref part (str "regex=")))] none))
  else if goHasPref part (str "oneof=") then
    let valueStr := goTrimPref part (str "oneof=")
    let values :=
      if containsCh valueStr ',' then splitAll valueStr ','
      else goFields valueStr
    .ok (some (.mk KOneOf [(str "values", .aStrList values)] none))
  else .ok (some (.mk part [] none))

/-- `types.parseIntRule`: `min=`/`max=` via `strconv.ParseInt`; any
other non-empty segment is an unknown-int-rule error. -/
def parseIntRule (part : GoString) : Except GoString (Option Rule) :=
  if part = [] then .ok none
  else if goHasPref part (str "min=") then
    match goParseInt64 (goTrimPref part (str "min=")) with
    | .error e => .error e
    | .ok n => .ok (some (.mk KMinInt [(str "n", .aInt .i64 n)] none))
  else if goHasPref part (str "max=") then
    match goParseInt64 (goTrimPref part (str "max=")) with
    | .error e => .error e
    | .ok n => .ok (some (.mk KMaxInt [(str "n", .aInt .i64 n)] none))
  else .error (str "unknown int rule: " ++ truncateForError part 50)

/-- The `string` base type's segment loop in `ParseTag` (nil rules from
empty segments are skipped; the first error wins, wrapped with the
truncated offending segment). -/
def parseStringParts : List GoString → Except GoString (List Rule)
  | [] => .ok []
  | part :: rest =>
    match parseStringRule part with
    | .error e =>
      .error (str "invalid string rule " ++ goQuote (truncateForError part 20) ++
        str ": " ++ e)
    | .ok none => parseStringParts rest
    | .ok (some r) =>
      match parseStringParts rest with
      | .error e => .error e
      | .ok rs => .ok (r :: rs)

/-- The `int`/`int64` base type's segment loop in `ParseTag`. -/
def parseIntParts : List GoString → Except GoString (List Rule)
  | [] => .ok []
  | part :: rest =>
    match parseIntRule part with
    | .error e =>
      .error (str "invalid int rule " ++ goQuote (truncateForError part 50) ++
        str ": " ++ e)
    | .ok none => parseIntParts rest
    | .ok (some r) =>
      match parseIntParts rest with
      | .error e => .error e
      | .ok rs => .ok (r :: rs)

mutual
/-- `types.ParseTag`'s body, fuel-driven: the fuel only bounds
`foreach=(...)` nesting (each level strips the nine-plus characters
`foreach=(`..`)` from the tag, so the `tag.length + 1` budget supplied
by `ParseTag` always suffices; the exhaustion branch is unreachable
from `ParseTag`). -/
def parseTagF : Nat → GoString → Except GoString (List Rule)
  | 0, _ => .error (str "foreach nesting exceeds fuel")
  | fuel + 1, tag =>
    if tag = [] then .ok []
    else
      match splitTagSafely tag with
      | [] => .error (str "empty tag")
      | baseType :: rest =>
        if baseType = str "string" then
          match parseStringParts rest with
          | .error e => .error e
          | .ok rs => .ok (NewRule KString [] :: rs)
        else if baseType = str "int" ∨ baseType = str "int64" then
          let kind := if baseType = str "int64" then KInt64 else KInt
          match parseIntParts rest with
          | .error e => .error e
          | .ok rs => .ok (NewRule kind [] :: rs)
        else if baseType = str "slice" then
          match parseSliceParts fuel rest with
          | .error e => .error e
          | .ok rs => .ok (NewRule KSlice [] :: rs)
        else if baseType = str "bool" then .ok [NewRule KBool []]
        else .error (str "unknown type: " ++ truncateForError baseType 50)

/-- The `slice` base type's segment loop in `ParseTag` (the fuel drops
by one per segment and per nesting level; since every segment after
the base token is preceded by a semicolon of the original tag, the
`tag.length + 1` budget supplied by `ParseTag` always suffices). -/
def parseSliceParts : Nat → List GoString → Except GoString (List Rule)
  | _, [] => .ok []
  | 0, _ :: _ => .error (str "foreach nesting exceeds fuel")
  | fuel + 1, part :: rest =>
    match parseSliceRule fuel part with
    | .error e =>
      .error (str "invalid slice rule " ++ goQuote (truncateForError part 50) ++
        str ": " ++ e)
    | .ok none => parseSliceParts fuel rest
    | .ok (some r) =>
      match parseSliceParts fuel rest with
      | .error e => .error e
      | .ok rs => .ok (r :: rs)

/-- `types.parseSliceRule`: `length=`/`min=`/`max=` via `strconv.Atoi`,
the parenthesis-wrapped `foreach=(...)` with its recursive `ParseTag`
call, and the unknown-slice-rule error. -/
def parseSliceRule (fuel : Nat) (part : GoString) : Except GoString (Option Rule) :=
  if part = [] then .ok none
  else if goHasPref part (str "length=") then
    match goAtoi (goTrimPref part (str "length=")) with
    | .error e => .error e
    | .ok n => .ok (some (.mk KSliceLength [(str "n", .aInt .i n)] none))
  else if goHasPref part (str "min=") then
    match goAtoi (goTrimPref part (str "min=")) with
    | .error e => .error e
    | .ok n => .ok (some (.mk KMinSliceLength [(str "n", .aInt .i n)] none))
  else if goHasPref part (str "max=") then
    match goAtoi (goTrimPref part (str "max=")) with
    | .error e => .error e
    | .ok n => .ok (some (.mk KMaxSliceLength [(str "n", .aInt .i n)] none))
  else if goHasPref part (str "foreach=") then
    let inner := goTrimPref part (str "foreach=")
    if ¬ (goHasPref inner (str "(") = true ∧ goHasSuffix inner (str ")") = true) then
      .error (str "foreach must be wrapped in parentheses: " ++
        truncateForError inner 50)
    else
      let inner2 := goTrimSuffix (goTrimPref inner (str "(")) (str ")")
      match fuel with
      | 0 => .error (str "foreach nesting exceeds fuel")
      | fuel' + 1 =>
        match parseTagF fuel' inner2 with
        | .error e => .error (str "invalid foreach rules: " ++ e)
        | .ok innerRules =>
          match innerRules with
          | [] => .error (str "foreach must have at least one rule")
          | first :: _ =>
            .ok (some (.mk KForEach [(str "rules", .aRules innerRules)] (some first)))
  else .error (str "unknown slice rule: " ++ truncateForError part 50)
end

/-- `types.ParseTag` (the fuel always suffices, see `parseTagF`). -/
def ParseTag (tag : GoString) : Except GoString (List Rule) :=
  parseTagF (tag.length + 1) tag

/-! ## Canonical serialization (`core/serialize_rules.go`) -/

/-- Generic Go map indexing on an association list (first match). -/
def goMapFind {α : Type} : List (GoString × α) → GoString → Option α
  | [], _ => none
  | (k, v) :: rest, key => if k = key then some v else goMapFind rest key

/-- `sort.Strings` (byte-wise lexicographic ascending sort). -/
def sortStrs (l : List GoString) : List GoString := List.insertionSort strLe l

/-- Emit `k1:v1,k2:v2,...` over the pre-serialized pairs, iterating the
keys in sorted order and indexing the map for each key — the shape of
both the `args` block of `SerializeRules` and the `map[string]any`
case of `serializeArg` (values are serialized before the emission loop
to keep the recursion structural; the emitted text is identical). -/
def emitSortedPairs (pairs : List (GoString × GoString)) : GoString :=
  goJoin [','] ((sortStrs (pairs.map Prod.fst)).map
    fun k => k ++ ':' :: (goMapFind pairs k).getD [])

/-- Emit `k1:v1 k2:v2` with sorted keys (the `fmt` map layout). -/
def emitSortedSpacePairs (pairs : List (GoString × GoString)) : GoString :=
  goJoin [' '] ((sortStrs (pairs.map Prod.fst)).map
    fun k => k ++ ':' :: (goMapFind pairs k).getD [])

mutual
/-- `core.serializeArg`: deterministic representation of one rule
argument.  Sorted `[]string`, recursive `[]types.Rule` and `*types.Rule`,
sorted-key `map[string]any`, a fixed `"fn"` marker for function values;
`[]any`/array and struct arguments fall into the Go `fmt`-fallback
branch (`strconv.Quote(fmt.Sprintf("%v", v))`), modelled by `fmtVArg`.
Floats are not modelled (never constructed by the library). -/
def serializeArg : Arg → GoString
  | .aNil => str "nil"
  | .aStr s => goQuote s
  | .aBool b => if b then str "true" else str "false"
  | .aInt _ n => intToStr n
  | .aUInt _ n => natToStr n
  | .aStrList ss => '[' :: goJoin [','] ((sortStrs ss).map goQuote) ++ [']']
  | .aRules rs => '[' :: goJoin [','] (serializeRuleListStrs rs) ++ [']']
  | .aRulePtr none => str "nil"
  | .aRulePtr (some r) => serializeRuleStr r
  | .aMap m => '\x7b' :: emitSortedPairs (serializePairs m) ++ ['\x7d']
  | .aFunc _ _ => goQuote (str "fn")
  | .aList l => goQuote ('[' :: goJoin [' '] (fmtVArgList l) ++ [']'])
  | .aStructV fs => goQuote ('\x7b' :: goJoin [' '] (fmtVStructFields fs) ++ ['\x7d'])

/-- The `writeRule` closure of `core.SerializeRules` (also inlined in
the `*types.Rule` case of `serializeArg`): kind plus the sorted-key
args block.  As in the source, `Elem` is not serialized. -/
def serializeRuleStr : Rule → GoString
  | .mk kind args _elem =>
    str "\x7bkind:" ++ kind ++
      (if args.length > 0 then
        str ",args:\x7b" ++ emitSortedPairs (serializePairs args) ++ str "\x7d"
      else []) ++ str "\x7d"

/-- Serialize each rule of a `[]types.Rule`. -/
def serializeRuleListStrs : List Rule → List GoString
  | [] => []
  | r :: rs => serializeRuleStr r :: serializeRuleListStrs rs

/-- Serialize every value of an args map, keeping the keys. -/
def serializePairs : List (GoString × Arg) → List (GoString × GoString)
  | [] => []
  | (k, v) :: rest => (k, serializeArg v) :: serializePairs rest

/-- Model of `fmt.Sprintf("%v", ·)` on an argument, reached only
through the fallback branch of `serializeArg` for `[]any`/array and
struct arguments.  `fmt` prints maps with sorted keys; for function
values Go prints the runtime address, modelled by the function's
abstract address.  No claim depends on this text beyond its
determinism. -/
def fmtVArg : Arg → GoString
  | .aNil => str "<nil>"
  | .aStr s => s
  | .aBool b => if b then str "true" else str "false"
  | .aInt _ n => intToStr n
  | .aUInt _ n => natToStr n
  | .aStrList ss => '[' :: goJoin [' '] ss ++ [']']
  | .aRules rs => '[' :: goJoin [' '] (fmtVRuleList rs) ++ [']']
  | .aRulePtr none => str "<nil>"
  | .aRulePtr (some r) => '&' :: fmtVRule r
  | .aMap m => str "map[" ++ emitSortedSpacePairs (fmtVPairs m) ++ [']']
  | .aFunc addr _ => str "0x" ++ natToStr addr
  | .aList l => '[' :: goJoin [' '] (fmtVArgList l) ++ [']']
  | .aStructV fs => '\x7b' :: goJoin [' '] (fmtVStructFields fs) ++ ['\x7d']

/-- `fmt %v` of a `types.Rule` struct value. -/
def fmtVRule : Rule → GoString
  | .mk kind args elem =>
    '\x7b' :: kind ++ ' ' :: (str "map[" ++ emitSortedSpacePairs (fmtVPairs args) ++ [']']) ++
      ' ' :: (match elem with
              | none => str "<nil>"
              | some r => '&' :: fmtVRule r) ++ ['\x7d']

/-- `fmt %v` of each rule in a list. -/
def fmtVRuleList : List Rule → List GoString
  | [] => []
  | r :: rs => fmtVRule r :: fmtVRuleList rs

/-- `fmt %v` of each element of a `[]any`. -/
def fmtVArgList : List Arg → List GoString
  | [] => []
  | a :: rest => fmtVArg a :: fmtVArgList rest

/-- `fmt %v` of each field of a struct value (all fields). -/
def fmtVStructFields : List (Bool × Arg) → List GoString
  | [] => []
  | (_, a) :: rest => fmtVArg a :: fmtVStructFields rest

/-- `fmt %v` of every value of a map, keeping the keys. -/
def fmtVPairs : List (GoString × Arg) → List (GoString × GoString)
  | [] => []
  | (k, v) :: rest => (k, fmtVArg v) :: fmtVPairs rest
end

/-- `core.SerializeRules`: the deterministic, canonical cache-key
string for a rule set. -/
def SerializeRules (rules : List Rule) : GoString :=
  '[' :: goJoin [','] (serializeRuleListStrs rules) ++ [']']

mutual
/-- `core.argHasFunc`: whether a rule-argument value is or contains a
function, looking through pointers/interfaces, slices and arrays, map
values and exported struct fields.  A `types.Rule` encountered inside
an argument (via `[]types.Rule` or `*types.Rule`) is a struct whose
exported fields `Args` and `Elem` are scanned recursively. -/
def argHasFunc : Arg → Bool
  | .aNil => false
  | .aStr _ => false
  | .aBool _ => false
  | .aInt _ _ => false
  | .aUInt _ _ => false
  | .aStrList _ => false
  | .aRules rs => rulesHaveFunc rs
  | .aRulePtr none => false
  | .aRulePtr (some r) => ruleHasFunc r
  | .aFunc _ _ => true
  | .aMap m => mapHasFunc m
  | .aList l => listHasFunc l
  | .aStructV fs => structFieldsHaveFunc fs

/-- Scan a `types.Rule` struct's exported fields (`Kind` never holds a
function; `Args` and `Elem` are scanned). -/
def ruleHasFunc : Rule → Bool
  | .mk _ args elem => mapHasFunc args || elemHasFunc elem

/-- Scan an optional `*types.Rule`. -/
def elemHasFunc : Option Rule → Bool
  | none => false
  | some r => ruleHasFunc r

/-- Scan each rule of a `[]types.Rule`. -/
def rulesHaveFunc : List Rule → Bool
  | [] => false
  | r :: rs => ruleHasFunc r || rulesHaveFunc rs

/-- Scan the values of a `map[string]any`. -/
def mapHasFunc : List (GoString × Arg) → Bool
  | [] => false
  | (_, v) :: rest => argHasFunc v || mapHasFunc rest

/-- Scan the elements of a `[]any` or array. -/
def listHasFunc : List Arg → Bool
  | [] => false
  | a :: rest => argHasFunc a || listHasFunc rest

/-- Scan the exported fields of a struct value. -/
def structFieldsHaveFunc : List (Bool × Arg) → Bool
  | [] => false
  | (exported, a) :: rest =>
    (exported && argHasFunc a) || structFieldsHaveFunc rest
end

/-- `core.HasFuncArgs`: whether any rule's `Args` map holds a function,
directly or nested (the top-level `Elem` field is not scanned, matching
the source, which only passes `r.Args` to `argHasFunc`). -/
def HasFuncArgs : List Rule → Bool
  | [] => false
  | .mk _ args _ :: rs => mapHasFunc args || HasFuncArgs rs

/-! ## Engine (`core`: engine file) -/

/-- `core.Engine` (= `core.Validate`).  `compiled` is the `sync.Map`
cache (association list in insertion order).  The last two fields are
the ambient process environment the engine's compiles consult: the
global plugin registry copied by `types.NewCompiler`, and the regexp
library oracle; both are carried unchanged by every configuration
mutator. -/
structure Engine where
  customRules : List (GoString × ValueFn)
  translator : Option Translator
  pathSep : GoString
  compiled : List (GoString × ValueFn)
  registry : GoString → Option (Rule → Option ValueFn)
  regexEnv : GoString → Option (GoString → Bool)

/-- `types.NewCompiler(e.translator)`: a fresh compiler whose custom
table is the snapshot of the global registry. -/
def NewCompilerOf (e : Engine) : Compiler :=
  ⟨e.translator, e.registry, e.regexEnv⟩

/-- Copy a Go map and set one key (value-level model of
`WithCustomRule`'s copy-then-insert). -/
def goMapSet {α : Type} (l : List (GoString × α)) (k : GoString) (v : α) :
    List (GoString × α) :=
  (k, v) :: l.filter fun p => decide (p.1 ≠ k)

/-- `Engine.WithCustomRule`: new engine with the rule registered and a
fresh (empty) compilation cache. -/
def WithCustomRule (e : Engine) (name : GoString) (rule : ValueFn) : Engine :=
  { customRules := goMapSet e.customRules name rule
    translator := e.translator
    pathSep := e.pathSep
    compiled := []
    registry := e.registry
    regexEnv := e.regexEnv }

/-- `Engine.WithTranslator`: new engine with the translator and a fresh
(empty) compilation cache. -/
def WithTranslator (e : Engine) (t : Translator) : Engine :=
  { customRules := e.customRules
    translator := some t
    pathSep := e.pathSep
    compiled := []
    registry := e.registry
    regexEnv := e.regexEnv }

/-- `Engine.PathSeparator`: new engine with the separator (empty input
keeps the old one) and a fresh (empty) compilation cache. -/
def PathSeparator (e : Engine) (sep : GoString) : Engine :=
  { customRules := e.customRules
    translator := e.translator
    pathSep := if sep ≠ [] then sep else e.pathSep
    compiled := []
    registry := e.registry
    regexEnv := e.regexEnv }

/-- `Engine.FromRules`: compile validators from rule tokens.  Custom
single-token rules bypass the cache; otherwise the tokens are joined
into a tag, the tag keyspace (`tag:` keys) is consulted, and a miss
parses, compiles and stores (`LoadOrStore`).  The returned engine
carries the possibly-updated cache. -/
def FromRules (e : Engine) (tokens : List GoString) :
    Except GoString ValueFn × Engine :=
  match tokens with
  | [] => (.error (str "empty rules"), e)
  | t0 :: _ =>
    match goMapFind e.customRules t0 with
    | some rule =>
      if tokens.length = 1 then (.ok rule, e) else fromRulesTag e tokens
    | none => fromRulesTag e tokens
where
  /-- The tag-keyspace path of `FromRules`. -/
  fromRulesTag (e : Engine) (tokens : List GoString) :
      Except GoString ValueFn × Engine :=
    let tag := goJoin [';'] tokens
    let key := str "tag:" ++ tag
    match goMapFind e.compiled key with
    | some fn => (.ok fn, e)
    | none =>
      match ParseTag tag with
      | .error err => (.error (str "parse rules: " ++ err), e)
      | .ok ast =>
        let fn := Compile (NewCompilerOf e) ast
        match goMapFind e.compiled key with
        | some existing => (.ok existing, e)
        | none => (.ok fn, { e with compiled := e.compiled ++ [(key, fn)] })

/-- `Engine.CompileRules`: compile AST rules, caching by the canonical
serialization (`ast:` keys) unless any rule carries a function argument,
in which case the cache is skipped entirely and the compile is fresh. -/
def CompileRules (e : Engine) (rules : List Rule) : ValueFn × Engine :=
  if HasFuncArgs rules then
    (Compile (NewCompilerOf e) rules, e)
  else
    let key := str "ast:" ++ SerializeRules rules
    match goMapFind e.compiled key with
    | some fn => (fn, e)
    | none =>
      let fn := Compile (NewCompilerOf e) rules
      match goMapFind e.compiled key with
      | some existing => (existing, e)
      | none => (fn, { e with compiled := e.compiled ++ [(key, fn)] })

/-! ## Struct walker (`structvalidator/struct.go`, `core/opts.go`) -/

/-- `core.ValidateOpts`. -/
structure ValidateOpts where
  stopOnFirst : Bool
  pathSep : GoString

/-- `core.ApplyOpts` (the engine is always non-nil here). -/
def ApplyOpts (e : Engine) (o : ValidateOpts) : ValidateOpts :=
  if o.pathSep = [] then { o with pathSep := e.pathSep } else o

/-- `structvalidator.fieldPathJoin`: join with the separator, except
that bracket-led child paths concatenate directly. -/
def fieldPathJoin (base name sep : GoString) : GoString :=
  if base = [] then name
  else
    let sep := if sep = [] then str "." else sep
    match name with
    | '[' :: _ => base ++ name
    | _ => base ++ sep ++ name

/-- `structvalidator.derefPointer` (stops at nil pointers). -/
def derefPointer : Value → Value
  | .vPtr (some v) => derefPointer v
  | v => v

/-- Wrap a validator invocation error into the walker's field errors:
structured errors are path-prefixed and merged, others wrapped at the
field path with the `unknown` code. -/
def fieldErrsOf (fieldPath : GoString) (sep : GoString) : VError → List FieldError
  | .structured es =>
    es.map fun fe => { fe with path := fieldPathJoin fieldPath fe.path sep }
  | .generic m => [⟨fieldPath, CodeUnknown, m⟩]

mutual
/-- The field loop of `walkStruct` in
`structvalidator.ValidateStructWithOpts`: unexported fields are
skipped; untagged fields recurse into struct/slice/array/map shapes;
tagged fields are validated via `Engine.FromRules` on the
semicolon-split tag.  Returns the discovered errors, the
continue/stop flag (`false` aborts the walk), and the engine with its
updated cache. -/
def walkFields (opts : ValidateOpts) (eng : Engine) :
    List StructField → GoString → List FieldError × Bool × Engine
  | [], _ => ([], true, eng)
  | .mk name exported tag v :: rest, path =>
    if exported = false then walkFields opts eng rest path
    else
      let fieldPath := fieldPathJoin path name opts.pathSep
      if tag = [] then
        let res := walkUntagged opts eng v fieldPath
        if res.2.1 = false ∧ opts.stopOnFirst then (res.1, false, res.2.2)
        else
          let res2 := walkFields opts res.2.2 rest path
          (res.1 ++ res2.1, res2.2.1, res2.2.2)
      else
        let rules := splitAll tag ';'
        match FromRules eng rules with
        | (.error err, eng1) =>
          let fe : FieldError := ⟨fieldPath, CodeUnknown, err⟩
          if opts.stopOnFirst then ([fe], false, eng1)
          else
            let res2 := walkFields opts eng1 rest path
            (fe :: res2.1, res2.2.1, res2.2.2)
        | (.ok fn, eng1) =>
          match fn v with
          | some verr =>
            let fes := fieldErrsOf fieldPath opts.pathSep verr
            if opts.stopOnFirst then (fes, false, eng1)
            else
              let res2 := walkFields opts eng1 rest path
              (fes ++ res2.1, res2.2.1, res2.2.2)
          | none =>
            let res2 := walkFields opts eng1 rest path
            (res2.1, res2.2.1, res2.2.2)

/-- The untagged-field recursion of `walkStruct` (models
`derefPointer` followed by the kind switch: structs recurse, slices
and arrays recurse per element, maps per value, everything else is
skipped). -/
def walkUntagged (opts : ValidateOpts) (eng : Engine) :
    Value → GoString → List FieldError × Bool × Engine
  | .vPtr (some v), fieldPath => walkUntagged opts eng v fieldPath
  | .vStruct fs, fieldPath => walkFields opts eng fs fieldPath
  | .vSlice xs, fieldPath => walkElems opts eng 0 xs fieldPath
  | .vMapV entries, fieldPath => walkEntries opts eng entries fieldPath
  | _, _ => ([], true, eng)

/-- The per-element loop for untagged slice/array fields: element `j`
gets path `fieldPath[j]`; only (pointer-dereferenced) struct elements
recurse. -/
def walkElems (opts : ValidateOpts) (eng : Engine) :
    Nat → List Value → GoString → List FieldError × Bool × Engine
  | _, [], _ => ([], true, eng)
  | j, x :: xs, fieldPath =>
    let ep := fieldPath ++ '[' :: natToStr j ++ [']']
    let res := walkElem opts eng x ep
    if res.2.1 = false ∧ opts.stopOnFirst then (res.1, false, res.2.2)
    else
      let res2 := walkElems opts res.2.2 (j + 1) xs fieldPath
      (res.1 ++ res2.1, res2.2.1, res2.2.2)

/-- One slice element or map value: dereference pointers and recurse
if the result is a struct. -/
def walkElem (opts : ValidateOpts) (eng : Engine) :
    Value → GoString → List FieldError × Bool × Engine
  | .vPtr (some v), ep => walkElem opts eng v ep
  | .vStruct fs, ep => walkFields opts eng fs ep
  | _, _ => ([], true, eng)

/-- The per-entry loop for untagged map fields: key `k` gets path
`fieldPath[k]` (iteration order is the model's list order; Go's map
iteration order is unspecified). -/
def walkEntries (opts : ValidateOpts) (eng : Engine) :
    List (GoString × Value) → GoString → List FieldError × Bool × Engine
  | [], _ => ([], true, eng)
  | (k, x) :: rest, fieldPath =>
    let ep := fieldPath ++ '[' :: k ++ [']']
    let res := walkElem opts eng x ep
    if res.2.1 = false ∧ opts.stopOnFirst then (res.1, false, res.2.2)
    else
      let res2 := walkEntries opts res.2.2 rest fieldPath
      (res.1 ++ res2.1, res2.2.1, res2.2.2)
end

/-- Rough model of Go `%T` for the non-struct error message (the text
is not relied upon by any claim). -/
def goTypeName : Value → GoString
  | .vNil => str "<nil>"
  | .vStr _ => str "string"
  | .vBool _ => str "bool"
  | .vInt _ _ => str "int"
  | .vUInt _ _ => str "uint"
  | .vSlice _ => str "slice"
  | .vStruct _ => str "struct"
  | .vMapV _ => str "map"
  | .vPtr _ => str "ptr"

/-- `StructValidator.ValidateStructWithOpts`: apply option defaults,
dereference one pointer level, require a struct, then walk the fields
from the root, returning the aggregated errors (or nil) and the engine
with its updated cache. -/
def ValidateStructWithOpts (e : Engine) (s : Value) (opts : ValidateOpts) :
    Option VError × Engine :=
  let opts := ApplyOpts e opts
  let val : Value :=
    match s with
    | .vPtr (some v) => v
    | .vPtr none => .vNil
    | v => v
  match val with
  | .vStruct fs =>
    let res := walkFields opts e fs []
    if res.1.length > 0 then (some (.structured res.1), res.2.2)
    else (none, res.2.2)
  | _ =>
    (some (.generic (str "ValidateStruct: expected struct, got " ++ goTypeName s)), e)

/-- `StructValidator.ValidateStruct`: default options. -/
def ValidateStruct (e : Engine) (s : Value) : Option VError × Engine :=
  ValidateStructWithOpts e s ⟨false, []⟩

/-! ## Order facts about the string comparison used by `sort.Strings` -/

theorem strLeB_cons {x y : Char} {xs ys : GoString} :
    strLeB (x :: xs) (y :: ys) = true ↔
      x.toNat < y.toNat ∨ (x.toNat = y.toNat ∧ strLeB xs ys = true) := by
  simp only [strLeB]
  split_ifs with h1 h2
  · simp [h1]
  · simp [h1, h2]
  · simp [h1, h2]

theorem strLeB_total (a b : GoString) : strLeB a b = true ∨ strLeB b a = true := by
  induction a generalizing b with
  | nil => left; rfl
  | cons x xs ih =>
    cases b with
    | nil => right; rfl
    | cons y ys =>
      rcases Nat.lt_trichotomy x.toNat y.toNat with h | h | h
      · exact Or.inl (strLeB_cons.mpr (Or.inl h))
      · rcases ih ys with h2 | h2
        · exact Or.inl (strLeB_cons.mpr (Or.inr ⟨h, h2⟩))
        · exact Or.inr (strLeB_cons.mpr (Or.inr ⟨h.symm, h2⟩))
      · exact Or.inr (strLeB_cons.mpr (Or.inl h))

theorem strLeB_trans {a b c : GoString} (h1 : strLeB a b = true)
    (h2 : strLeB b c = true) : strLeB a c = true := by
  induction a generalizing b c with
  | nil => rfl
  | cons x xs ih =>
    cases b with
    | nil => simp [strLeB] at h1
    | cons y ys =>
      cases c with
      | nil => simp [strLeB] at h2
      | cons z zs =>
        rw [strLeB_cons] at h1 h2 ⊢
        rcases h1 with h1 | ⟨e1, t1⟩ <;> rcases h2 with h2 | ⟨e2, t2⟩
        · exact Or.inl (Nat.lt_trans h1 h2)
        · exact Or.inl (e2 ▸ h1)
        · exact Or.inl (e1 ▸ h2)
        · exact Or.inr ⟨e1.trans e2, ih t1 t2⟩

theorem char_toNat_inj {c₁ c₂ : Char} (h : c₁.toNat = c₂.toNat) : c₁ = c₂ :=
  Char.ext (UInt32.ext h)

theorem strLeB_antisymm {a b : GoString} (h1 : strLeB a b = true)
    (h2 : strLeB b a = true) : a = b := by
  induction a generalizing b with
  | nil =>
    cases b with
    | nil => rfl
    | cons y ys => simp [strLeB] at h2
  | cons x xs ih =>
    cases b with
    | nil => simp [strLeB] at h1
    | cons y ys =>
      rw [strLeB_cons] at h1 h2
      rcases h1 with h1 | ⟨e1, t1⟩ <;> rcases h2 with h2 | ⟨e2, t2⟩
      · exact absurd h2 (Nat.lt_asymm h1)
      · exact absurd h1 (e2 ▸ Nat.lt_irrefl _)
      · exact absurd h2 (e1 ▸ Nat.lt_irrefl _)
      · exact congrArg₂ List.cons (char_toNat_inj e1) (ih t1 t2)

instance : IsTotal GoString strLe := ⟨fun a b => strLeB_total a b⟩
instance : IsTrans GoString strLe := ⟨fun _ _ _ => strLeB_trans⟩
instance : IsAntisymm GoString strLe := ⟨fun _ _ => strLeB_antisymm⟩

/-- Key order on map pairs (only the key is compared, as in the
serialization's sorted-key emission). -/
def pairLe {α : Type} (p q : GoString × α) : Prop := strLe p.1 q.1

instance {α : Type} : DecidableRel (pairLe (α := α)) := fun p q =>
  inferInstanceAs (Decidable (strLe p.1 q.1))

instance {α : Type} : IsTotal (GoString × α) pairLe := ⟨fun a b => strLeB_total a.1 b.1⟩
instance {α : Type} : IsTrans (GoString × α) pairLe := ⟨fun _ _ _ => strLeB_trans⟩

/-- Sort map pairs by key (used by the canonical form below). -/
def sortPairsByKey {α : Type} (l : List (GoString × α)) : List (GoString × α) :=
  List.insertionSort pairLe l

/-- Map over the values of an association list, keeping keys. -/
def mapVals {α β : Type} (f : α → β) (l : List (GoString × α)) :
    List (GoString × β) :=
  l.map fun p => (p.1, f p.2)

theorem sortStrs_sorted (l : List GoString) : List.Sorted strLe (sortStrs l) :=
  List.sorted_insertionSort strLe l

theorem sortStrs_perm (l : List GoString) : (sortStrs l).Perm l :=
  List.perm_insertionSort strLe l

theorem sortStrs_congr {l₁ l₂ : List GoString} (h : l₁.Perm l₂) :
    sortStrs l₁ = sortStrs l₂ :=
  List.eq_of_perm_of_sorted
    (((sortStrs_perm l₁).trans h).trans (sortStrs_perm l₂).symm)
    (sortStrs_sorted l₁) (sortStrs_sorted l₂)

theorem sortStrs_idem (l : List GoString) : sortStrs (sortStrs l) = sortStrs l :=
  (sortStrs_sorted l).insertionSort_eq

theorem sortPairs_perm {α : Type} (l : List (GoString × α)) :
    (sortPairsByKey l).Perm l :=
  List.perm_insertionSort pairLe l

theorem sortPairs_sorted {α : Type} (l : List (GoString × α)) :
    List.Sorted pairLe (sortPairsByKey l) :=
  List.sorted_insertionSort pairLe l

theorem keys_sortPairs {α : Type} (l : List (GoString × α)) :
    (sortPairsByKey l).map Prod.fst = sortStrs (l.map Prod.fst) :=
  List.eq_of_perm_of_sorted
    (((sortPairs_perm l).map Prod.fst).trans (sortStrs_perm (l.map Prod.fst)).symm)
    (List.Pairwise.map Prod.fst (fun _ _ h => h) (sortPairs_sorted l))
    (sortStrs_sorted (l.map Prod.fst))

theorem mapVals_nil {α β : Type} (f : α → β) : mapVals f ([] : List (GoString × α)) = [] := rfl

theorem mapVals_cons {α β : Type} (f : α → β) (p : GoString × α) (t : List (GoString × α)) :
    mapVals f (p :: t) = (p.1, f p.2) :: mapVals f t := rfl

theorem mapVals_keys {α β : Type} (f : α → β) (l : List (GoString × α)) :
    (mapVals f l).map Prod.fst = l.map Prod.fst := by
  induction l with
  | nil => rfl
  | cons p t ih => rw [mapVals_cons, List.map_cons, List.map_cons, ih]

theorem goMapFind_mapVals {α β : Type} (f : α → β) (l : List (GoString × α))
    (k : GoString) : goMapFind (mapVals f l) k = (goMapFind l k).map f := by
  induction l with
  | nil => rfl
  | cons p t ih =>
    rw [mapVals_cons]
    by_cases h : p.1 = k
    · simp [goMapFind, h]
    · simp only [goMapFind, h, if_neg h, if_false]
      exact ih

theorem goMapFind_perm {α : Type} {l₁ l₂ : List (GoString × α)}
    (h : l₁.Perm l₂) (hnd : (l₁.map Prod.fst).Nodup) (k : GoString) :
    goMapFind l₁ k = goMapFind l₂ k := by
  induction h with
  | nil => rfl
  | cons p _ ih =>
    simp only [List.map_cons, List.nodup_cons] at hnd
    by_cases hk : p.1 = k
    · simp [goMapFind, hk]
    · simp only [goMapFind, if_neg hk]
      exact ih hnd.2
  | swap x y l =>
    simp only [List.map_cons, List.nodup_cons, List.mem_cons] at hnd
    have hxy : y.1 ≠ x.1 := fun h => hnd.1 (Or.inl h)
    by_cases hk1 : y.1 = k <;> by_cases hk2 : x.1 = k
    · exact absurd (hk1.trans hk2.symm) hxy
    · simp [goMapFind, hk1, hk2]
    · simp [goMapFind, hk1, hk2]
    · simp [goMapFind, hk1, hk2]
  | trans h12 _ ih1 ih2 =>
    have hnd2 := ((h12.map Prod.fst).nodup_iff).mp hnd
    exact (ih1 hnd).trans (ih2 hnd2)

theorem mapVals_orderedInsert {α β : Type} (f : α → β) (p : GoString × α)
    (l : List (GoString × α)) :
    mapVals f (List.orderedInsert pairLe p l) =
      List.orderedInsert pairLe (p.1, f p.2) (mapVals f l) := by
  induction l with
  | nil => rfl
  | cons q t ih =>
    by_cases h : pairLe p q
    · have h2 : pairLe (p.1, f p.2) (q.1, f q.2) := h
      simp only [List.orderedInsert, if_pos h, if_pos h2, mapVals_cons]
      rfl
    · have h2 : ¬ pairLe (p.1, f p.2) (q.1, f q.2) := h
      simp only [List.orderedInsert, if_neg h, if_neg h2, mapVals_cons, ih]
      rfl

theorem mapVals_sortPairs {α β : Type} (f : α → β) (l : List (GoString × α)) :
    mapVals f (sortPairsByKey l) = sortPairsByKey (mapVals f l) := by
  induction l with
  | nil => rfl
  | cons p t ih =>
    simp only [sortPairsByKey] at ih ⊢
    simp only [mapVals_cons, List.insertionSort, mapVals_orderedInsert]
    rw [ih]
    rfl

theorem emitSorted_sortPairs {l : List (GoString × GoString)}
    (hnd : (l.map Prod.fst).Nodup) :
    emitSortedPairs (sortPairsByKey l) = emitSortedPairs l := by
  unfold emitSortedPairs
  rw [keys_sortPairs, sortStrs_idem]
  refine congrArg (goJoin [',']) (List.map_congr_left fun k _ => ?_)
  have hnd' : ((sortPairsByKey l).map Prod.fst).Nodup :=
    (((sortPairs_perm l).map Prod.fst).nodup_iff).mpr hnd
  rw [goMapFind_perm (sortPairs_perm l) hnd' k]

/-! ## Canonical form of rule trees

`canonRule` sorts every (nested) args map by key, sorts `[]string`
arguments, and normalizes integer argument widths.  Two rule lists are
"equal up to the iteration order of their args maps, the element order
of their `[]string` arguments, and the bit-width of their integer
arguments" exactly when their canonical forms coincide (for the
well-formed — duplicate-free-keyed — maps that Go maps always give). -/

/-- Duplicate-free key list (true of every Go map's key set). -/
def nodupKeysB : List GoString → Bool
  | [] => true
  | k :: ks => decide (¬ k ∈ ks) && nodupKeysB ks

theorem nodupKeysB_iff (l : List GoString) : nodupKeysB l = true ↔ l.Nodup := by
  induction l with
  | nil => simp [nodupKeysB]
  | cons k ks ih => simp [nodupKeysB, List.nodup_cons, ih]

mutual
/-- Well-formedness: every (nested) args map has duplicate-free keys. -/
def wfArg : Arg → Bool
  | .aRules rs => wfRules rs
  | .aRulePtr (some r) => wfRule r
  | .aMap m => nodupKeysB (m.map Prod.fst) && wfPairs m
  | _ => true

/-- Well-formedness of an args map's values. -/
def wfPairs : List (GoString × Arg) → Bool
  | [] => true
  | (_, v) :: rest => wfArg v && wfPairs rest

/-- Well-formedness of a rule. -/
def wfRule : Rule → Bool
  | .mk _ args elem => nodupKeysB (args.map Prod.fst) && wfPairs args && wfElem elem

/-- Well-formedness of an optional element rule. -/
def wfElem : Option Rule → Bool
  | none => true
  | some r => wfRule r

/-- Well-formedness of a rule list. -/
def wfRules : List Rule → Bool
  | [] => true
  | r :: rs => wfRule r && wfRules rs
end

mutual
/-- Canonical form of an argument (see the section comment).  Function
arguments are kept as they are — no canonical function value exists —
and `[]any`/struct arguments are left untouched, since the
serialization's `fmt` fallback performs no normalization there. -/
def canonArg : Arg → Arg
  | .aNil => .aNil
  | .aStr s => .aStr s
  | .aBool b => .aBool b
  | .aInt _ n => .aInt .i64 n
  | .aUInt _ n => .aUInt .u64 n
  | .aStrList ss => .aStrList (sortStrs ss)
  | .aRules rs => .aRules (canonRules rs)
  | .aRulePtr none => .aRulePtr none
  | .aRulePtr (some r) => .aRulePtr (some (canonRule r))
  | .aFunc addr f => .aFunc addr f
  | .aMap m => .aMap (sortPairsByKey (canonPairs m))
  | .aList l => .aList l
  | .aStructV fs => .aStructV fs

/-- Canonicalize the values of an args map. -/
def canonPairs : List (GoString × Arg) → List (GoString × Arg)
  | [] => []
  | (k, v) :: rest => (k, canonArg v) :: canonPairs rest

/-- Canonical form of a rule. -/
def canonRule : Rule → Rule
  | .mk kind args elem => .mk kind (sortPairsByKey (canonPairs args)) (canonElem elem)

/-- Canonical form of an optional element rule. -/
def canonElem : Option Rule → Option Rule
  | none => none
  | some r => some (canonRule r)

/-- Canonical form of a rule list. -/
def canonRules : List Rule → List Rule
  | [] => []
  | r :: rs => canonRule r :: canonRules rs
end

theorem canonPairs_eq_mapVals (m : List (GoString × Arg)) :
    canonPairs m = mapVals canonArg m := by
  induction m with
  | nil => rfl
  | cons p rest ih =>
    cases p with
    | mk k v => rw [canonPairs, mapVals_cons, ih]

theorem serializePairs_eq_mapVals (m : List (GoString × Arg)) :
    serializePairs m = mapVals serializeArg m := by
  induction m with
  | nil => rfl
  | cons p rest ih =>
    cases p with
    | mk k v => rw [serializePairs, mapVals_cons, ih]

theorem keys_canonPairs (m : List (GoString × Arg)) :
    (canonPairs m).map Prod.fst = m.map Prod.fst := by
  rw [canonPairs_eq_mapVals, mapVals_keys]

/-- The sorted-key args body is unchanged by canonicalizing and sorting
a well-formed map whose canonicalized values serialize identically. -/
theorem mapBody_canon (m : List (GoString × Arg))
    (hnd : nodupKeysB (m.map Prod.fst) = true)
    (hpairs : serializePairs (canonPairs m) = serializePairs m) :
    emitSortedPairs (serializePairs (sortPairsByKey (canonPairs m))) =
      emitSortedPairs (serializePairs m) := by
  have hnd' : ((mapVals serializeArg (canonPairs m)).map Prod.fst).Nodup := by
    rw [mapVals_keys, keys_canonPairs]
    exact (nodupKeysB_iff _).mp hnd
  rw [serializePairs_eq_mapVals, mapVals_sortPairs, emitSorted_sortPairs hnd',
    ← serializePairs_eq_mapVals, hpairs]

mutual
theorem serializeArg_canon : ∀ a, wfArg a = true → serializeArg (canonArg a) = serializeArg a
  | .aNil, _ => rfl
  | .aStr _, _ => rfl
  | .aBool _, _ => rfl
  | .aInt _ _, _ => rfl
  | .aUInt _ _, _ => rfl
  | .aStrList ss, _ => by
    simp only [canonArg, serializeArg, sortStrs_idem]
  | .aRules rs, h => by
    simp only [canonArg, serializeArg]
    rw [serializeRuleList_canon rs (by simpa [wfArg] using h)]
  | .aRulePtr none, _ => rfl
  | .aRulePtr (some r), h => by
    simp only [canonArg, serializeArg]
    rw [serializeRule_canon r (by simpa [wfArg] using h)]
  | .aFunc _ _, _ => rfl
  | .aMap m, h => by
    have h' : nodupKeysB (m.map Prod.fst) = true ∧ wfPairs m = true := by
      simpa [wfArg] using h
    simp only [canonArg, serializeArg]
    rw [mapBody_canon m h'.1 (serializePairs_canon m h'.2)]
  | .aList _, _ => rfl
  | .aStructV _, _ => rfl

theorem serializeRule_canon : ∀ r, wfRule r = true →
    serializeRuleStr (canonRule r) = serializeRuleStr r
  | .mk kind args elem, h => by
    have h'' : nodupKeysB (args.map Prod.fst) = true ∧ wfPairs args = true ∧
        wfElem elem = true := by
      simpa [wfRule, and_assoc] using h
    have hlen : (sortPairsByKey (canonPairs args)).length = args.length := by
      rw [(sortPairs_perm _).length_eq, canonPairs_eq_mapVals]
      simp [mapVals]
    simp only [canonRule, serializeRuleStr]
    rw [hlen, mapBody_canon args h''.1 (serializePairs_canon args h''.2.1)]

theorem serializeRuleList_canon : ∀ rs, wfRules rs = true →
    serializeRuleListStrs (canonRules rs) = serializeRuleListStrs rs
  | [], _ => rfl
  | r :: rs, h => by
    have h' : wfRule r = true ∧ wfRules rs = true := by simpa [wfRules] using h
    simp only [canonRules, serializeRuleListStrs]
    rw [serializeRule_canon r h'.1, serializeRuleList_canon rs h'.2]

theorem serializePairs_canon : ∀ m, wfPairs m = true →
    serializePairs (canonPairs m) = serializePairs m
  | [], _ => rfl
  | (k, v) :: rest, h => by
    have h' : wfArg v = true ∧ wfPairs rest = true := by simpa [wfPairs] using h
    simp only [canonPairs, serializePairs]
    rw [serializeArg_canon v h'.1, serializePairs_canon rest h'.2]
end

/-! ## Concrete fixtures used by witnesses and counterexamples -/

/-- A compiler with no translator, an empty custom registry and a
regexp oracle on which no pattern compiles. -/
def cNil : Compiler := ⟨none, fun _ => none, fun _ => none⟩

/-- An engine with no custom rules, no translator, the default `.`
separator, an empty cache, an empty ambient plugin registry and a
regexp oracle on which no pattern compiles. -/
def engNil : Engine := ⟨[], none, str ".", [], fun _ => none, fun _ => none⟩

/-- The kinds handled by a built-in case of `compileRule`'s switch. -/
def isBuiltinKind (k : GoString) : Bool :=
  decide (k = KString) || decide (k = KLength) || decide (k = KMinLength) ||
  decide (k = KMaxLength) || decide (k = KMinRunes) || decide (k = KMaxRunes) ||
  decide (k = KRegex) || decide (k = KOneOf) || decide (k = KInt) ||
  decide (k = KInt64) || decide (k = KMinInt) || decide (k = KMaxInt) ||
  decide (k = KSlice) || decide (k = KSliceLength) || decide (k = KMinSliceLength) ||
  decide (k = KMaxSliceLength) || decide (k = KForEach) || decide (k = KBool)

/-! ## Claim C1 -/

/-- C1: `Compile` is total — it always returns a callable validator
(immediate from its type in this embedding: `Compile` and `compileRule`
are total functions into `ValueFn`).  A rule whose kind has no custom
handler and no built-in case compiles to a validator failing on every
input with the `unknown rule kind` error, and a `KRegex` rule whose
(anchored) pattern does not compile yields a validator failing on every
input with the invalid-pattern code — both surfacing only at invocation
time. -/
theorem compile_unknown_kind_and_invalid_regex_defer_errors :
    (∀ (c : Compiler) (rule : Rule) (v : Value),
      c.custom rule.kind = none →
      isBuiltinKind rule.kind = false →
      (compileRule c rule).validate v =
        some (.generic (str "unknown rule kind: " ++ rule.kind)))
    ∧
    (∀ (c : Compiler) (args : List (GoString × Arg)) (elem : Option Rule) (v : Value),
      c.custom KRegex = none →
      compileRegexSafe c (getStringArg (.mk KRegex args elem) (str "pattern") []) = none →
      (compileRule c (.mk KRegex args elem)).validate v =
        some (.structured [⟨[], CodeStringRegexInvalidPattern,
          translateMessage c CodeStringRegexInvalidPattern
            (str "invalid regex pattern: %s")
            [.vStr (getStringArg (.mk KRegex args elem) (str "pattern") [])]⟩])) := by
  constructor
  · intro c rule v hc hb
    cases rule with
    | mk kind args elem =>
      simp only [Rule.kind] at hc hb
      simp only [isBuiltinKind, Bool.or_eq_false_iff, decide_eq_false_iff_not,
        and_assoc] at hb
      obtain ⟨h1, h2, h3, h4, h5, h6, h7, h8, h9, h10, h11, h12, h13, h14, h15,
        h16, h17, h18⟩ := hb
      simp only [compileRule, hc, h1, h2, h3, h4, h5, h6, h7, h8, h9, h10, h11,
        h12, h13, h14, h15, h16, h17, h18, if_false, compiledRule.validate]
      rfl
  · intro c args elem v hc hre
    simp only [compileRule, compileRegexRule, hc, hre]
    rfl

/-- Witness for C1 at concrete inputs: an unregistered kind and an
uncompilable regex pattern. -/
theorem compile_unknown_kind_and_invalid_regex_defer_errors_witness :
    (compileRule cNil (.mk (str "frobnicate") [] none)).validate (.vStr (str "x")) =
      some (.generic (str "unknown rule kind: frobnicate"))
    ∧ (compileRule cNil (.mk KRegex [(str "pattern", .aStr (str "("))] none)).validate
        (.vStr (str "x")) =
      some (.structured [⟨[], CodeStringRegexInvalidPattern,
        str "invalid regex pattern: %s"⟩]) := by
  constructor
  · exact compile_unknown_kind_and_invalid_regex_defer_errors.1 cNil
      (.mk (str "frobnicate") [] none) (.vStr (str "x")) rfl (by decide)
  · exact compile_unknown_kind_and_invalid_regex_defer_errors.2 cNil
      [(str "pattern", .aStr (str "("))] none (.vStr (str "x")) rfl rfl

/-! ## Claim C6 -/

/-- C6: rule-chain evaluation short-circuits across rules — the
compiled chain returns the first rule's failure and the remaining
rules' validators are never consulted: for a chain headed by `A`, if
`A`'s compiled closure fails on `v` then the whole chain reports
exactly that failure, for every tail. -/
theorem chain_short_circuit (c : Compiler) (A : Rule) (rest : List Rule)
    (v : Value) (e : VError)
    (h : (compileRule c A).validate v = some e) :
    Compile c (A :: rest) v = some e := by
  simp only [Compile, runChain, h]

/-- Witness for C6: `[A, B]` with `A = minLength 2`, `B = maxLength 0`
on `"a"` — `B` would also fail, but only `A`'s failure is reported. -/
theorem chain_short_circuit_witness :
    (compileRule cNil (.mk KMinLength [(str "n", .aInt .i 2)] none)).validate
        (.vStr (str "a")) =
      some (.structured [⟨[], CodeStringMin, str "minimum length is 2"⟩])
    ∧ Compile cNil [.mk KMinLength [(str "n", .aInt .i 2)] none,
        .mk KMaxLength [(str "n", .aInt .i 0)] none] (.vStr (str "a")) =
      some (.structured [⟨[], CodeStringMin, str "minimum length is 2"⟩]) :=
  ⟨rfl, chain_short_circuit cNil _ _ _ _ rfl⟩

/-! ## Claim C7 -/

/-- C7: cache-bypass invariant — when any rule argument (directly or
nested in maps, slices/arrays, pointers, or exported struct fields) is
a function value (`HasFuncArgs`), `Engine.CompileRules` neither reads
from nor writes to the compilation cache: the result is the fresh
compile (independent of the cache contents) and the engine — cache
included — is returned unchanged, so no cache entry for such a rule
list is ever observable by a later lookup. -/
theorem compileRules_cache_bypass (e : Engine) (rules : List Rule)
    (h : HasFuncArgs rules = true) :
    CompileRules e rules = (Compile (NewCompilerOf e) rules, e) := by
  simp only [CompileRules, h, if_true]

/-- Witness for C7: a `forEach` rule holding a raw validator function,
compiled against an engine whose cache is non-empty. -/
theorem compileRules_cache_bypass_witness :
    HasFuncArgs [.mk KForEach [(str "validator", .aFunc 7 (fun _ => none))] none] = true
    ∧ CompileRules
        { engNil with compiled := [(str "ast:probe", fun _ => none)] }
        [.mk KForEach [(str "validator", .aFunc 7 (fun _ => none))] none] =
      (Compile (NewCompilerOf { engNil with compiled := [(str "ast:probe", fun _ => none)] })
        [.mk KForEach [(str "validator", .aFunc 7 (fun _ => none))] none],
       { engNil with compiled := [(str "ast:probe", fun _ => none)] }) :=
  ⟨rfl, compileRules_cache_bypass _ _ rfl⟩

/-! ## Claim C9 -/

theorem goMapFind_filter_ne {α : Type} (l : List (GoString × α)) (name k : GoString)
    (h : k ≠ name) :
    goMapFind (l.filter fun p => decide (p.1 ≠ name)) k = goMapFind l k := by
  induction l with
  | nil => rfl
  | cons p t ih =>
    obtain ⟨k1, v1⟩ := p
    rw [List.filter_cons]
    by_cases hp : k1 = name
    · have hcond : ¬ (decide (((k1, v1) : GoString × α).1 ≠ name) = true) := by
        simp [hp]
      rw [if_neg hcond, ih, goMapFind, if_neg (fun hk : k1 = k => h (hk.symm.trans hp))]
    · have hcond : decide (((k1, v1) : GoString × α).1 ≠ name) = true := by
        simp [hp]
      rw [if_pos hcond]
      by_cases hk1 : k1 = k
      · rw [goMapFind, if_pos hk1, goMapFind, if_pos hk1]
      · rw [goMapFind, if_neg hk1, ih, goMapFind, if_neg hk1]

/-- C9: the configuration mutators `WithTranslator`, `WithCustomRule`
and `PathSeparator` never mutate the receiver (in this pure embedding
every `Engine` value is immutable; the Go methods construct a fresh
struct and never write through the receiver): each returns a new
engine whose compilation cache is empty while the remaining
configuration is carried over — `WithCustomRule` additionally installs
the new rule, and `PathSeparator` ignores an empty separator. -/
theorem mutators_fresh_cache_preserve_config (e : Engine) (t : Translator)
    (name : GoString) (rule : ValueFn) (sep : GoString) :
    ((WithTranslator e t).compiled = [] ∧
     (WithTranslator e t).customRules = e.customRules ∧
     (WithTranslator e t).pathSep = e.pathSep ∧
     (WithTranslator e t).translator = some t)
    ∧
    ((WithCustomRule e name rule).compiled = [] ∧
     (WithCustomRule e name rule).translator = e.translator ∧
     (WithCustomRule e name rule).pathSep = e.pathSep ∧
     (∀ k, goMapFind (WithCustomRule e name rule).customRules k =
       if k = name then some rule else goMapFind e.customRules k))
    ∧
    ((PathSeparator e sep).compiled = [] ∧
     (PathSeparator e sep).customRules = e.customRules ∧
     (PathSeparator e sep).translator = e.translator ∧
     (PathSeparator e sep).pathSep = if sep ≠ [] then sep else e.pathSep) := by
  refine ⟨⟨rfl, rfl, rfl, rfl⟩, ⟨rfl, rfl, rfl, fun k => ?_⟩, ⟨rfl, rfl, rfl, rfl⟩⟩
  by_cases hk : k = name
  · simp [WithCustomRule, goMapSet, goMapFind, hk]
  · simp only [WithCustomRule, goMapSet, goMapFind, if_neg hk,
      if_neg (fun h : name = k => hk h.symm)]
    exact goMapFind_filter_ne e.customRules name k hk

/-! ## Claim C10 -/

theorem findForEachRules_none (c : Compiler) (args : List (GoString × Arg))
    (h : ∀ rs, argsFind args (str "rules") ≠ some (.aRules rs)) :
    findForEachRules c args = none := by
  induction args with
  | nil => rfl
  | cons p t ih =>
    obtain ⟨k, v⟩ := p
    by_cases hk : k = str "rules"
    · subst hk
      have hv : ∀ rs, v ≠ .aRules rs := fun rs hrs =>
        h rs (by rw [argsFind, if_pos rfl, hrs])
      rw [findForEachRules, if_pos rfl]
      cases v <;> first | rfl | exact absurd rfl (hv _)
    · rw [findForEachRules, if_neg hk]
      exact ih fun rs hrs => h rs (by rw [argsFind, if_neg hk]; exact hrs)

theorem validatorArgFn_none (args : List (GoString × Arg))
    (h : ∀ a f, argsFind args (str "validator") ≠ some (.aFunc a f)) :
    validatorArgFn (argsFind args (str "validator")) = none := by
  rcases hfind : argsFind args (str "validator") with _ | a
  · rfl
  · cases a <;> first | rfl | exact absurd hfind (h _ _)

/-- C10: a `forEach` rule constructed directly whose `Args` carry no
`[]Rule` under the `rules` key, whose `Elem` is nil and whose `Args`
carry no `func(any) error` under the `validator` key compiles (absent a
custom handler) to a validator returning nil for every input — the
malformed `forEach` silently passes instead of reporting any error. -/
theorem malformed_forEach_silently_passes (c : Compiler)
    (args : List (GoString × Arg)) (v : Value)
    (hc : c.custom KForEach = none)
    (hrules : ∀ rs, argsFind args (str "rules") ≠ some (.aRules rs))
    (hvalidator : ∀ a f, argsFind args (str "validator") ≠ some (.aFunc a f)) :
    (compileRule c (.mk KForEach args none)).validate v = none := by
  simp only [compileRule, hc, findForEachRules_none c args hrules,
    validatorArgFn_none args hvalidator, elemCompiled, Option.orElse, Option.elim]
  rfl

/-- Witness for C10: an argument-less `forEach` rule passes a non-slice
input without any error. -/
theorem malformed_forEach_silently_passes_witness :
    (compileRule cNil (.mk KForEach [] none)).validate (.vInt .i 42) = none :=
  malformed_forEach_silently_passes cNil [] (.vInt .i 42) rfl
    (fun _ h => Option.noConfusion h) (fun _ _ h => Option.noConfusion h)

/-! ## Claim C5 -/

/-- The claim's description of `forEach`, written independently of the
implementation's accumulator loop: enumerate the elements, evaluate the
element validator on every one, prefix each resulting error path with
the element's bracketed index, and aggregate — starting from index `i`. -/
def forEachSpecFrom (elemValidator : ValueFn) (i : Nat) (xs : List Value) :
    List FieldError :=
  (List.enumFrom i xs).flatMap fun p =>
    match elemValidator p.2 with
    | none => []
    | some (.structured es) => es.map fun fe => { fe with path := brIdx p.1 ++ fe.path }
    | some (.generic m) => [⟨brIdx p.1, CodeUnknown, m⟩]

/-- The claim's aggregate over a whole slice. -/
def forEachSpecOutcome (elemValidator : ValueFn) (xs : List Value) : List FieldError :=
  forEachSpecFrom elemValidator 0 xs

theorem forEachAux_eq_spec (f : ValueFn) :
    ∀ (xs : List Value) (i : Nat), forEachAux f i xs = forEachSpecFrom f i xs := by
  intro xs
  induction xs with
  | nil => intro i; rfl
  | cons x t ih =>
    intro i
    simp only [forEachAux, forEachSpecFrom, List.enumFrom, List.flatMap_cons]
    rw [ih (i + 1)]
    rfl

/-- C5: the `forEach` validator is exhaustive over elements — for every
slice it evaluates the element validator on every element (no
short-circuit), prefixes each produced error path with the element's
bracketed index, and returns the aggregate (nil only when the aggregate
is empty); in particular, for a three-element slice whose elements 0
and 2 fail and element 1 passes, the result is exactly the two
failures, path-prefixed `[0]` and `[2]`. -/
theorem forEach_exhaustive_aggregation :
    (∀ (c : Compiler) (f : ValueFn) (xs : List Value),
      validateForEach c (.vSlice xs) f =
        if forEachSpecOutcome f xs = [] then none
        else some (.structured (forEachSpecOutcome f xs)))
    ∧ (∀ (c : Compiler) (f : ValueFn) (x0 x1 x2 : Value) (e0 e2 : FieldError),
      f x0 = some (.structured [e0]) → f x1 = none →
      f x2 = some (.structured [e2]) →
      validateForEach c (.vSlice [x0, x1, x2]) f =
        some (.structured [{ e0 with path := str "[0]" ++ e0.path },
                           { e2 with path := str "[2]" ++ e2.path }])) := by
  constructor
  · intro c f xs
    simp only [validateForEach, forEachAux_eq_spec f xs 0]
    by_cases hacc : forEachSpecFrom f 0 xs = []
    · simp [forEachSpecOutcome, hacc]
    · have : 0 < (forEachSpecFrom f 0 xs).length := List.length_pos.mpr hacc
      simp [forEachSpecOutcome, hacc, this]
  · intro c f x0 x1 x2 e0 e2 h0 h1 h2
    simp only [validateForEach, forEachAux, h0, h1, h2]
    rfl

/-- Witness for C5's three-element schema at concrete inputs. -/
theorem forEach_exhaustive_aggregation_witness :
    validateForEach cNil (.vSlice [.vStr (str "a"), .vStr (str "bb"), .vStr (str "c")])
      (Compile cNil [.mk KString [] none, .mk KMinLength [(str "n", .aInt .i 2)] none]) =
      some (.structured [⟨str "[0]", CodeStringMin, str "minimum length is 2"⟩,
                         ⟨str "[2]", CodeStringMin, str "minimum length is 2"⟩]) :=
  forEach_exhaustive_aggregation.2 cNil _ _ _ _
    ⟨[], CodeStringMin, str "minimum length is 2"⟩
    ⟨[], CodeStringMin, str "minimum length is 2"⟩ rfl rfl rfl

/-! ## Claim C8 -/

/-- C8: `SerializeRules` is canonical and deterministic — any two
well-formed rule lists that agree up to the iteration order of their
args maps, the element order of their `[]string` arguments and the
bit-width of their integer arguments (that is, with equal canonical
forms, see `canonRule`) serialize to byte-identical strings, including
recursively nested rule lists; and function-valued arguments serialize
to the fixed `"fn"` marker, never an address. -/
theorem serializeRules_deterministic :
    (∀ rs1 rs2 : List Rule, wfRules rs1 = true → wfRules rs2 = true →
      canonRules rs1 = canonRules rs2 →
      SerializeRules rs1 = SerializeRules rs2)
    ∧ (∀ (addr : Nat) (f : ValueFn), serializeArg (.aFunc addr f) = goQuote (str "fn")) := by
  constructor
  · intro rs1 rs2 h1 h2 hc
    unfold SerializeRules
    rw [← serializeRuleList_canon rs1 h1, hc, serializeRuleList_canon rs2 h2]
  · intro addr f
    rfl

/-- One side of the C8 witness: args in one order, `[]string` unsorted,
an `int` width, a nested rule list with its own map order. -/
def c8left : List Rule :=
  [.mk (str "demo")
    [(str "b", .aStrList [str "y", str "x"]), (str "a", .aInt .i 3)] none,
   .mk KForEach
    [(str "rules", .aRules
      [.mk (str "inner")
        [(str "q", .aUInt .u8 7), (str "p", .aStr (str "s"))] none])] none]

/-- The other side: maps reordered, `[]string` reordered, widths
changed (`int64`/`uint64`), same contents. -/
def c8right : List Rule :=
  [.mk (str "demo")
    [(str "a", .aInt .i64 3), (str "b", .aStrList [str "x", str "y"])] none,
   .mk KForEach
    [(str "rules", .aRules
      [.mk (str "inner")
        [(str "p", .aStr (str "s")), (str "q", .aUInt .u64 7)] none])] none]

/-- Witness for C8: the two reordered, width-shuffled rule lists are
well-formed, canonically equal, and serialize byte-identically. -/
theorem serializeRules_deterministic_witness :
    wfRules c8left = true ∧ wfRules c8right = true ∧
    SerializeRules c8left = SerializeRules c8right :=
  ⟨by decide, by decide,
    serializeRules_deterministic.1 c8left c8right (by decide) (by decide) rfl⟩

/-! ## Claim C3 -/

/-- Counterexample to C3 as stated: the tag `string;regex=(` has
unbalanced parentheses yet parses successfully into a rule list (the
whole segment becomes the regex pattern), so unbalanced parentheses do
not always yield a parse error for the `string` base type. -/
theorem parse_unbalanced_string_base_succeeds :
    ParseTag (str "string;regex=(") =
      .ok [.mk KString [] none,
           .mk KRegex [(str "pattern", .aStr (str "("))] none] := rfl

theorem goHasPref_append (p s : GoString) : goHasPref (p ++ s) p = true := by
  induction p with
  | nil => cases s <;> rfl
  | cons c cs ih => simp [goHasPref, ih]

theorem goTrimPref_append (p s : GoString) : goTrimPref (p ++ s) p = s := by
  unfold goTrimPref
  rw [if_pos (goHasPref_append p s), List.drop_left]

theorem goHasPref_split {s p : GoString} (h : goHasPref s p = true) :
    s = p ++ s.drop p.length := by
  induction p generalizing s with
  | nil => simp
  | cons c cs ih =>
    cases s with
    | nil => simp [goHasPref] at h
    | cons a as =>
      simp only [goHasPref, Bool.and_eq_true, decide_eq_true_eq] at h
      obtain ⟨rfl, h2⟩ := h
      simpa using ih h2

/-- A parenthesis inside the numeral text makes `strconv` fail. -/
theorem goParseIntCore_paren {s : GoString} (h : '(' ∈ s ∨ ')' ∈ s) :
    goParseIntCore s = none := by
  have hmem : ∃ ch : Char, ch ∈ s ∧ isDigitCh ch = false ∧ ch ≠ '+' ∧ ch ≠ '-' := by
    rcases h with h | h
    · exact ⟨'(', h, by decide, by decide, by decide⟩
    · exact ⟨')', h, by decide, by decide, by decide⟩
  obtain ⟨ch, hch, hdig, hplus, hminus⟩ := hmem
  unfold goParseIntCore
  by_cases hsign : s.head? = some '+' ∨ s.head? = some '-'
  · simp only [hsign, if_true]
    cases s with
    | nil => simp at hch
    | cons a as =>
      have ha : ch = a ∨ ch ∈ as := by simpa using hch
      have hch' : ch ∈ as := by
        rcases ha with rfl | ha
        · rcases hsign with hs | hs <;> simp only [List.head?] at hs <;>
            exact absurd (Option.some.inj hs) (by assumption)
        · exact ha
      have : as.all isDigitCh = false := by
        rcases hall : as.all isDigitCh with _ | _
        · rfl
        · have := (List.all_eq_true.mp hall) ch hch'
          rw [hdig] at this
          exact absurd this (by decide)
      simp [List.drop_one, List.tail, this]
  · simp only [hsign, if_false]
    have : s.all isDigitCh = false := by
      rcases hall : s.all isDigitCh with _ | _
      · rfl
      · have := (List.all_eq_true.mp hall) ch hch
        rw [hdig] at this
        exact absurd this (by decide)
    have hne : ¬ (s = []) := by
      intro hnil
      rw [hnil] at hch
      simp at hch
    simp [hne, this]

/-- Any `int` base segment containing a parenthesis is rejected by
`parseIntRule`. -/
theorem parseIntRule_paren {part : GoString} (h : '(' ∈ part ∨ ')' ∈ part) :
    ∃ e, parseIntRule part = .error e := by
  have hne : ¬ (part = []) := by
    intro hnil
    rw [hnil] at h
    simp at h
  unfold parseIntRule
  by_cases hmin : goHasPref part (str "min=") = true
  · have hsplit := goHasPref_split hmin
    have hdrop : '(' ∈ part.drop 4 ∨ ')' ∈ part.drop 4 := by
      rcases h with h | h
      · rw [hsplit] at h
        rcases List.mem_append.mp h with h | h
        · exact absurd h (by decide)
        · exact Or.inl (by simpa using h)
      · rw [hsplit] at h
        rcases List.mem_append.mp h with h | h
        · exact absurd h (by decide)
        · exact Or.inr (by simpa using h)
    have htrim : goTrimPref part (str "min=") = part.drop 4 := by
      unfold goTrimPref
      rw [if_pos hmin]
      rfl
    have hnone : goParseIntCore (goTrimPref part (str "min=")) = none := by
      rw [htrim]
      exact goParseIntCore_paren hdrop
    exact ⟨strconvErr (str "ParseInt") (goTrimPref part (str "min="))
        (intSyntaxOk (goTrimPref part (str "min="))),
      by simp only [parseIntRule, if_neg hne, if_pos hmin, goParseInt64, hnone]⟩
  · by_cases hmax : goHasPref part (str "max=") = true
    · have hsplit := goHasPref_split hmax
      have hdrop : '(' ∈ part.drop 4 ∨ ')' ∈ part.drop 4 := by
        rcases h with h | h
        · rw [hsplit] at h
          rcases List.mem_append.mp h with h | h
          · exact absurd h (by decide)
          · exact Or.inl (by simpa using h)
        · rw [hsplit] at h
          rcases List.mem_append.mp h with h | h
          · exact absurd h (by decide)
          · exact Or.inr (by simpa using h)
      have htrim : goTrimPref part (str "max=") = part.drop 4 := by
        unfold goTrimPref
        rw [if_pos hmax]
        rfl
      have hnone : goParseIntCore (goTrimPref part (str "max=")) = none := by
        rw [htrim]
        exact goParseIntCore_paren hdrop
      exact ⟨strconvErr (str "ParseInt") (goTrimPref part (str "max="))
          (intSyntaxOk (goTrimPref part (str "max="))),
        by simp only [parseIntRule, if_neg hne, if_neg hmin, if_pos hmax,
              goParseInt64, hnone]⟩
    · exact ⟨str "unknown int rule: " ++ truncateForError part 50,
        by simp only [parseIntRule, if_neg hne, if_neg hmin, if_neg hmax]⟩

/-- A failing segment anywhere makes the whole `int` segment loop
fail. -/
theorem parseIntParts_err {parts : List GoString}
    (h : ∃ part ∈ parts, ∃ e, parseIntRule part = .error e) :
    ∃ e, parseIntParts parts = .error e := by
  induction parts with
  | nil => simp at h
  | cons p t ih =>
    rcases hp : parseIntRule p with e | r
    · exact ⟨str "invalid int rule " ++ goQuote (truncateForError p 50) ++
          str ": " ++ e,
        by simp only [parseIntParts, hp]⟩
    · have ht : ∃ part ∈ t, ∃ e, parseIntRule part = .error e := by
        obtain ⟨part, hmem, e, he⟩ := h
        rcases List.mem_cons.mp hmem with rfl | hmem
        · rw [hp] at he
          exact absurd he (by simp)
        · exact ⟨part, hmem, e, he⟩
      obtain ⟨e, he⟩ := ih ht
      cases r with
      | none => exact ⟨e, by simp [parseIntParts, hp, he]⟩
      | some rule => exact ⟨e, by simp [parseIntParts, hp, he]⟩

/-- C3 (amended): `ParseTag` never panics — it is a total function in
this embedding — and unbalanced parentheses never crash the parser, but
they are not uniformly rejected: for the `int`/`int64` base types every
tag with a parenthesis in a post-base segment yields a non-nil parse
error, while for the `string` base type (and, through `foreach`
recursion, the `slice` base type) such tags can parse successfully (see
the counterexample `parse_unbalanced_string_base_succeeds`). -/
theorem parse_unbalanced_int_base_errors (tag p0 : GoString)
    (rest : List GoString)
    (hsplit : splitTagSafely tag = p0 :: rest)
    (hbase : p0 = str "int" ∨ p0 = str "int64")
    (hparen : ∃ part ∈ rest, ('(' ∈ part ∨ ')' ∈ part)) :
    ∃ e, ParseTag tag = .error e := by
  have htag : ¬ (tag = []) := by
    intro hnil
    rw [hnil] at hsplit
    have h0 : splitTagSafely [] = ([] : List GoString) := rfl
    rw [h0] at hsplit
    exact List.noConfusion hsplit
  have herr : ∃ e, parseIntParts rest = .error e := by
    apply parseIntParts_err
    obtain ⟨part, hmem, hp⟩ := hparen
    exact ⟨part, hmem, parseIntRule_paren hp⟩
  obtain ⟨e, he⟩ := herr
  refine ⟨e, ?_⟩
  unfold ParseTag parseTagF
  rcases hbase with rfl | rfl
  · simp only [if_neg htag, hsplit]
    simp only [true_or, or_true, if_true, he]
    rw [if_neg (show ¬ (str "int" = str "string") by decide)]
  · simp only [if_neg htag, hsplit]
    simp only [true_or, or_true, if_true, he]
    rw [if_neg (show ¬ (str "int64" = str "string") by decide)]

/-- Witness for C3's amended statement at a concrete tag. -/
theorem parse_unbalanced_int_base_errors_witness :
    ∃ e, ParseTag (str "int;min=(") = .error e :=
  parse_unbalanced_int_base_errors (str "int;min=(") (str "int")
    [str "min=("] (by decide) (Or.inl rfl)
    ⟨str "min=(", by decide, Or.inl (by decide)⟩

/-! ## Claim C4 -/

/-- Counterexample to C4 as stated: the string base type recognizes the
key `length=`, not `len=`, and has no `minRunes=`/`maxRunes=` keys at
all — `len=3` and `minRunes=2` fall through the bareword branch and
parse into plugin rules whose kinds are the whole segments; with no
custom handler registered, the `minRunes=2` plugin kind then compiles
to a validator rejecting every input with the unknown-rule-kind error
instead of enforcing any rune bound. -/
theorem string_len_and_rune_keys_not_recognized :
    ParseTag (str "string;len=3") =
      .ok [.mk KString [] none, .mk (str "len=3") [] none]
    ∧ ParseTag (str "string;minRunes=2") =
      .ok [.mk KString [] none, .mk (str "minRunes=2") [] none]
    ∧ Compile cNil [.mk (str "minRunes=2") [] none] (.vStr (str "hello")) =
      some (.generic (str "unknown rule kind: minRunes=2")) :=
  ⟨rfl, rfl, rfl⟩

theorem parseStringRule_length_ok (sfx : GoString) (n : Int)
    (h : goAtoi sfx = .ok n) :
    parseStringRule (str "length=" ++ sfx) =
      .ok (some (.mk KLength [(str "n", .aInt .i n)] none)) := by
  have hne : ¬ (str "length=" ++ sfx = []) := fun hh => List.noConfusion hh
  simp only [parseStringRule, if_neg hne,
    if_pos (goHasPref_append (str "length=") sfx), goTrimPref_append, h]

theorem parseStringRule_min_ok (sfx : GoString) (n : Int)
    (h : goAtoi sfx = .ok n) :
    parseStringRule (str "min=" ++ sfx) =
      .ok (some (.mk KMinLength [(str "n", .aInt .i n)] none)) := by
  have hne : ¬ (str "min=" ++ sfx = []) := fun hh => List.noConfusion hh
  have hlen : goHasPref (str "min=" ++ sfx) (str "length=") = false := rfl
  simp only [parseStringRule, if_neg hne, hlen, Bool.false_eq_true, if_false,
    if_pos (goHasPref_append (str "min=") sfx), goTrimPref_append, h]

theorem parseStringRule_max_ok (sfx : GoString) (n : Int)
    (h : goAtoi sfx = .ok n) :
    parseStringRule (str "max=" ++ sfx) =
      .ok (some (.mk KMaxLength [(str "n", .aInt .i n)] none)) := by
  have hne : ¬ (str "max=" ++ sfx = []) := fun hh => List.noConfusion hh
  have hlen : goHasPref (str "max=" ++ sfx) (str "length=") = false := rfl
  have hmin : goHasPref (str "max=" ++ sfx) (str "min=") = false := rfl
  simp only [parseStringRule, if_neg hne, hlen, hmin, Bool.false_eq_true,
    if_false, if_pos (goHasPref_append (str "max=") sfx), goTrimPref_append, h]

theorem parseStringRule_min_err (sfx e : GoString)
    (h : goAtoi sfx = .error e) :
    parseStringRule (str "min=" ++ sfx) = .error e := by
  have hne : ¬ (str "min=" ++ sfx = []) := fun hh => List.noConfusion hh
  have hlen : goHasPref (str "min=" ++ sfx) (str "length=") = false := rfl
  simp only [parseStringRule, if_neg hne, hlen, Bool.false_eq_true, if_false,
    if_pos (goHasPref_append (str "min=") sfx), goTrimPref_append, h]

/-- C4 (amended): for the string base type the recognized rule keys are
`length=`, `min=`, `max=`, `regex=` and `oneof=` — `length=N` (not
`len=N`) parses into the exact-length rule, a non-base-10-integer
argument to a numeric key yields a descriptive parse error naming the
offending segment, and any other non-empty segment (in particular
`len=N`, `minRunes=N` and `maxRunes=N`) falls through to a bareword
plugin rule whose kind is the whole segment; rune-count bounds exist
only as compiler built-ins for AST-constructed `KMinRunes`/`KMaxRunes`
rules, which the tag parser never emits. -/
theorem string_rule_keys_amended :
    (∀ (sfx : GoString) (n : Int), goAtoi sfx = .ok n →
      parseStringRule (str "length=" ++ sfx) =
        .ok (some (.mk KLength [(str "n", .aInt .i n)] none))
      ∧ parseStringRule (str "min=" ++ sfx) =
        .ok (some (.mk KMinLength [(str "n", .aInt .i n)] none))
      ∧ parseStringRule (str "max=" ++ sfx) =
        .ok (some (.mk KMaxLength [(str "n", .aInt .i n)] none)))
    ∧ (∀ (sfx e : GoString) (rest : List GoString), goAtoi sfx = .error e →
      parseStringParts ((str "min=" ++ sfx) :: rest) =
        .error (str "invalid string rule " ++
          goQuote (truncateForError (str "min=" ++ sfx) 20) ++ str ": " ++ e))
    ∧ (∀ part : GoString, ¬ part = [] →
      goHasPref part (str "length=") = false →
      goHasPref part (str "min=") = false →
      goHasPref part (str "max=") = false →
      goHasPref part (str "regex=") = false →
      goHasPref part (str "oneof=") = false →
      parseStringRule part = .ok (some (.mk part [] none)))
    ∧ (∀ (c : Compiler) (v : Value), c.custom (str "minRunes=2") = none →
      (compileRule c (.mk (str "minRunes=2") [] none)).validate v =
        some (.generic (str "unknown rule kind: " ++ str "minRunes=2")))
    ∧ (∀ (c : Compiler) (args : List (GoString × Arg)) (v : Value),
      c.custom KMinRunes = none →
      (compileRule c (.mk KMinRunes args none)).validate v =
        validateMinRunes c v (getIntArg (.mk KMinRunes args none) (str "n") 0)) := by
  refine ⟨?_, ?_, ?_, ?_, ?_⟩
  · intro sfx n h
    exact ⟨parseStringRule_length_ok sfx n h, parseStringRule_min_ok sfx n h,
      parseStringRule_max_ok sfx n h⟩
  · intro sfx e rest h
    simp only [parseStringParts, parseStringRule_min_err sfx e h]
  · intro part hne hlen hmin hmax hregex honeof
    simp only [parseStringRule, if_neg hne, hlen, hmin, hmax, hregex, honeof,
      Bool.false_eq_true, if_false]
  · intro c v hc
    simp only [compileRule, hc]
    rfl
  · intro c args v hc
    simp only [compileRule, hc]
    rfl

/-- Witness for C4's amended statement at concrete segments. -/
theorem string_rule_keys_amended_witness :
    parseStringRule (str "length=3") =
      .ok (some (.mk KLength [(str "n", .aInt .i 3)] none))
    ∧ parseStringParts [str "min=abc"] =
      .error (str "invalid string rule " ++
        goQuote (truncateForError (str "min=abc") 20) ++ str ": " ++
        strconvErr (str "Atoi") (str "abc") (intSyntaxOk (str "abc")))
    ∧ parseStringRule (str "len=3") = .ok (some (.mk (str "len=3") [] none))
    ∧ (compileRule cNil (.mk (str "minRunes=2") [] none)).validate
        (.vStr (str "a")) =
      some (.generic (str "unknown rule kind: " ++ str "minRunes=2"))
    ∧ (compileRule cNil (.mk KMinRunes [(str "n", .aInt .i 2)] none)).validate
        (.vStr (str "a")) =
      validateMinRunes cNil (.vStr (str "a"))
        (getIntArg (.mk KMinRunes [(str "n", .aInt .i 2)] none) (str "n") 0) :=
  ⟨(string_rule_keys_amended.1 (str "3") 3 rfl).1,
   string_rule_keys_amended.2.1 (str "abc")
     (strconvErr (str "Atoi") (str "abc") (intSyntaxOk (str "abc"))) [] rfl,
   string_rule_keys_amended.2.2.1 (str "len=3") (by decide) (by decide)
     (by decide) (by decide) (by decide) (by decide),
   string_rule_keys_amended.2.2.2.1 cNil (.vStr (str "a")) rfl,
   string_rule_keys_amended.2.2.2.2 cNil [(str "n", .aInt .i 2)]
     (.vStr (str "a")) rfl⟩

/-! ## Claim C2 -/

/-- A two-field struct whose first field's `forEach` validation fails
on both slice elements. -/
def c2struct : Value :=
  .vStruct [.mk (str "Tags") true (str "slice;foreach=(string;min=2)")
    (.vSlice [.vStr (str "a"), .vStr (str "b")]),
    .mk (str "B") true (str "string;min=5") (.vStr (str "x"))]

/-- Counterexample to C2 as stated: with `stopOnFirst` enabled the walk
does stop after the first failing field, but it appends ALL of that
field's sub-errors before stopping — here the `forEach` validator of
`Tags` reports both elements, so the result carries two `FieldError`s
(`Tags[0]` and `Tags[1]`), not exactly one (the second field `B`, which
would also fail, is indeed never reached). -/
theorem stopOnFirst_returns_multiple_errors :
    (ValidateStructWithOpts engNil c2struct ⟨true, []⟩).1 =
      some (.structured
        [⟨str "Tags[0]", CodeStringMin, str "minimum length is 2"⟩,
         ⟨str "Tags[1]", CodeStringMin, str "minimum length is 2"⟩]) := rfl

theorem fieldPathJoin_nil (name sep : GoString) :
    fieldPathJoin [] name sep = name := by
  unfold fieldPathJoin
  rw [if_pos rfl]

/-- C2 (amended): with `stopOnFirst` enabled the walk aborts at the
first failing field (in field-declaration order; later fields are never
examined), but it returns every `FieldError` produced by that field's
validator — the whole structured error set, path-prefixed onto the
field name — not necessarily exactly one. -/
theorem stopOnFirst_first_failing_field_all_errors
    (e : Engine) (ps name tag : GoString) (v : Value)
    (rest : List StructField) (fn : ValueFn) (e1 : Engine)
    (es : List FieldError)
    (htag : ¬ tag = [])
    (hfr : FromRules e (splitAll tag ';') = (.ok fn, e1))
    (hfn : fn v = some (.structured es))
    (hes : ¬ es = []) :
    (ValidateStructWithOpts e (.vStruct (.mk name true tag v :: rest))
        ⟨true, ps⟩).1 =
      some (.structured (es.map fun fe =>
        { fe with path := (fieldPathJoin name fe.path
            (ApplyOpts e ⟨true, ps⟩).pathSep) })) := by
  have hstop : (ApplyOpts e ⟨true, ps⟩).stopOnFirst = true := by
    unfold ApplyOpts
    split <;> rfl
  have hwalk : walkFields (ApplyOpts e ⟨true, ps⟩) e
      (.mk name true tag v :: rest) [] =
      (es.map (fun fe => { fe with path := (fieldPathJoin name fe.path
        (ApplyOpts e ⟨true, ps⟩).pathSep) }), false, e1) := by
    simp only [walkFields, Bool.true_eq_false, if_false, if_neg htag,
      fieldPathJoin_nil, hfr, hfn, hstop, if_true, fieldErrsOf]
  simp only [ValidateStructWithOpts]
  rw [hwalk]
  simp only [List.length_map]
  rw [if_pos (List.length_pos.mpr hes)]

/-- The parsed AST of the tag `slice;foreach=(string;min=2)`. -/
def c2ast : List Rule :=
  [.mk KSlice [] none,
   .mk KForEach
     [(str "rules", .aRules
       [.mk KString [] none, .mk KMinLength [(str "n", .aInt .i 2)] none])]
     (some (.mk KString [] none))]

/-- The validator the engine compiles for that tag. -/
def c2fn : ValueFn := Compile (NewCompilerOf engNil) c2ast

/-- The engine after the compile, with the tag cached. -/
def c2eng1 : Engine :=
  { engNil with compiled :=
      [(str "tag:" ++ str "slice;foreach=(string;min=2)", c2fn)] }

/-- Witness for C2's amended statement: the concrete two-field struct
of the counterexample — the first field's two element failures come
back path-prefixed and the second field is never validated. -/
theorem stopOnFirst_first_failing_field_all_errors_witness :
    (ValidateStructWithOpts engNil c2struct ⟨true, []⟩).1 =
      some (.structured
        (([⟨str "[0]", CodeStringMin, str "minimum length is 2"⟩,
          ⟨str "[1]", CodeStringMin, str "minimum length is 2"⟩] :
            List FieldError).map fun fe =>
          { fe with path := (fieldPathJoin (str "Tags") fe.path
              (ApplyOpts engNil ⟨true, []⟩).pathSep) })) :=
  stopOnFirst_first_failing_field_all_errors engNil [] (str "Tags")
    (str "slice;foreach=(string;min=2)")
    (.vSlice [.vStr (str "a"), .vStr (str "b")])
    [.mk (str "B") true (str "string;min=5") (.vStr (str "x"))]
    c2fn c2eng1
    [⟨str "[0]", CodeStringMin, str "minimum length is 2"⟩,
     ⟨str "[1]", CodeStringMin, str "minimum length is 2"⟩]
    (by decide) rfl rfl (by decide)

end ValidateLib
